import Mathlib

/-!
Stretchy buffer (`vector.h`) and sliding-window counter (`day_1_2.c`) of the
Advent of Code 2021 repository.

A shallow embedding of the header-only growable array of `src/vector.h` and
of `read_input` and `main` of `src/day_1_2.c`.

Modelling conventions

* `size_t` values are natural numbers below `SIZE_MOD = 2 ^ 64`; every
  `size_t` addition, subtraction and shift of the source is written with its
  wrap-around (`addw`, `subw`, `shlw`).
* The storage behind a handle is a list of slots, one per element the
  allocation holds.  A slot is `none` while its content is indeterminate
  (fresh from `malloc`/`realloc`) and `some x` once `x` has been written.
  Byte offsets of the source are all multiples of `elem_size`, so the
  embedding counts in slots.
* The handle is `Option (vector__header α)`: `none` is the `NULL` handle.
* The allocator is a parameter `alloc : Nat → Bool` telling whether a request
  for that many slots (plus the header) is granted.  The functions of the
  namespace `Bytes` compute the request in bytes, as the source does, with
  the `size_t` wrap-around of `elems * elem_size + sizeof (header)`.
* An expression of the source either runs to completion, terminates the
  process through `exit (1)`, or has undefined behaviour (an access outside
  the allocation, a dereference of `NULL`): see `Outcome`.
* Pointer arithmetic inside `vector__shift` wraps like `size_t` arithmetic
  (flat 64-bit address space), which is what makes the negative shifts of
  `vector_remove` and `vector_erase` land below the source range.
* An expression that yields a value and updates the handle is a function to
  the pair of the value and the new handle.
* The standard input of `main` is the list of the values `strtol` returns for
  the lines `fgets` reads; its output is the number handed to `printf`.  The
  counter `inc` is an `unsigned` and wraps modulo `UINT_MOD = 2 ^ 32`.
-/

namespace Aoc

/-- Modulus of `size_t` arithmetic (`SIZE_MAX + 1` on the 64-bit target). -/
def SIZE_MOD : Nat := 2 ^ 64

/-- Addition of two `size_t` values. -/
def addw (a b : Nat) : Nat := (a + b) % SIZE_MOD

/-- Subtraction of two `size_t` values: the difference when there is one,
and `SIZE_MOD` minus the shortfall when the result wraps below zero. -/
def subw (a b : Nat) : Nat :=
  if b % SIZE_MOD ≤ a % SIZE_MOD then a % SIZE_MOD - b % SIZE_MOD
  else SIZE_MOD - (b % SIZE_MOD - a % SIZE_MOD)

/-- Left shift of a `size_t` value by one bit. -/
def shlw (a : Nat) : Nat := (a * 2) % SIZE_MOD

/-- Conversion of an integer to `long` (two's complement, 64 bits). -/
def toLong (x : Int) : Int := (x + 2 ^ 63) % 2 ^ 64 - 2 ^ 63

/-- What running an expression of the program leads to. -/
inductive Outcome (β : Type) where
  /-- ran to completion with this value -/
  | ok (b : β) : Outcome β
  /-- wrote `msg` to stderr and called `exit (status)` -/
  | fatal (msg : String) (status : Nat) : Outcome β
  /-- undefined behaviour -/
  | ub : Outcome β
  deriving DecidableEq, Repr

/-- Sequencing of two program steps. -/
def Outcome.bind {β γ : Type} (x : Outcome β) (f : β → Outcome γ) : Outcome γ :=
  match x with
  | .ok b => f b
  | .fatal msg st => .fatal msg st
  | .ub => .ub

/-- The `struct vector__header` together with the slots of its flexible
array member `data`. -/
structure vector__header (α : Type) where
  size : Nat
  capacity : Nat
  data : List (Option α)
  deriving DecidableEq, Repr

/-- A handle: `none` is `NULL`, `some h` points at the data of header `h`. -/
abbrev Vec (α : Type) := Option (vector__header α)

section Defs

variable {α : Type}

/-- `vector_size(v)`: `(v) == NULL ? 0 : vector__size(v)`. -/
def vector_size (v : Vec α) : Nat :=
  match v with
  | none => 0
  | some h => h.size

/-- `vector_capacity(v)`: `(v) == NULL ? 0 : vector__capacity(v)`. -/
def vector_capacity (v : Vec α) : Nat :=
  match v with
  | none => 0
  | some h => h.capacity

/-- `vector_empty(v)`. -/
def vector_empty (v : Vec α) : Bool :=
  match v with
  | none => true
  | some h => h.size == 0

/-- The live elements of a buffer: the first `size` slots. -/
def elements (v : Vec α) : List (Option α) :=
  match v with
  | none => []
  | some h => h.data.take h.size

/-- `realloc` on the slots of a block: the first `min old new` slots are
kept, slots gained are indeterminate. -/
def realloc_slots (old : List (Option α)) (elems : Nat) : List (Option α) :=
  old.take elems ++ List.replicate (elems - old.length) none

/-- `vector__resize_f(data, elems, elem_size)`, counted in slots: the request
`elems * elem_size + sizeof (struct vector__header)` is taken not to wrap, so
that a granted block holds `elems` slots (the case of every growth from an
existing block).  `Bytes.vector__resize_f` computes the byte count. -/
def vector__resize_f (alloc : Nat → Bool) (data : Vec α) (elems : Nat) : Outcome (Vec α) :=
  if alloc elems then
    match data with
    | none => .ok (some ⟨0, elems, List.replicate elems none⟩)
    | some h =>
      let size := if elems < h.size then elems else h.size
      .ok (some ⟨size, elems, realloc_slots h.data elems⟩)
  else
    .fatal "vector__resize_f: allocation failed\n" 1

/-- `vector__grow_f(data, size, elem_size)`. -/
def vector__grow_f (alloc : Nat → Bool) (data : Vec α) (size : Nat) : Outcome (Vec α) :=
  let min_needed := addw (vector_size data) size
  let default_growth := shlw (vector_capacity data)
  let new_capacity := if default_growth > min_needed then default_growth else min_needed
  vector__resize_f alloc data new_capacity

/-- `vector__needgrow(v, n)`:
`(v) == NULL || vector__size(v) + (n) >= vector__capacity(v)`. -/
def vector__needgrow (v : Vec α) (n : Nat) : Bool :=
  match v with
  | none => true
  | some h => decide (addw h.size n ≥ h.capacity)

/-- `vector__maybegrow(v, n)`: grows the buffer when `vector__needgrow` says
so, and leaves the handle alone otherwise. -/
def vector__maybegrow (alloc : Nat → Bool) (v : Vec α) (n : Nat) : Outcome (Vec α) :=
  if vector__needgrow v n then vector__grow_f alloc v n else .ok v

/-- `memmove` inside one block of slots: `count` slots starting at slot `src`
are copied to slot `dst` (the ranges may overlap); leaving the block is
undefined. -/
def memmove (mem : List (Option α)) (dst src count : Nat) : Outcome (List (Option α)) :=
  if dst + count ≤ mem.length ∧ src + count ≤ mem.length then
    .ok (mem.take dst ++ (mem.drop src).take count ++ mem.drop (dst + count))
  else
    .ub

/-- `vector__shift(data, index, diff, elem_size)`: moves the slots
`[index, size)` by `diff` slots.  The destination `at + diff * elem_size` is
computed like the source does, in wrap-around arithmetic on the flat 64-bit
address space, so a negative `diff` lands below `at`. -/
def vector__shift (h : vector__header α) (index : Nat) (diff : Int) :
    Outcome (vector__header α) :=
  let count := subw h.size index
  let dst := (((index : Int) + diff) % (SIZE_MOD : Int)).toNat
  match memmove h.data dst index count with
  | .ok d => .ok ⟨h.size, h.capacity, d⟩
  | .fatal msg st => .fatal msg st
  | .ub => .ub

/-- `vector__create(capacity, elem_size)`: the result of `malloc` is used
without a test, so a failed allocation is a write through `NULL`.  Counted in
slots like `vector__resize_f`: the request
`capacity * elem_size + sizeof (struct vector__header)` is taken not to
wrap. -/
def vector__create (alloc : Nat → Bool) (capacity : Nat) : Outcome (Vec α) :=
  if alloc capacity then
    .ok (some ⟨0, capacity, List.replicate capacity none⟩)
  else
    .ub

/-- `vector_create(T, n)`. -/
def vector_create (alloc : Nat → Bool) (n : Nat) : Outcome (Vec α) :=
  vector__create alloc (n % SIZE_MOD)

/-- `vector_resize(v, n)`. -/
def vector_resize (alloc : Nat → Bool) (v : Vec α) (n : Nat) : Outcome (Vec α) :=
  vector__resize_f alloc v (n % SIZE_MOD)

/-- `vector_reserve(v, n)`:
`(n) > vector_capacity(v) ? vector_resize((v), (n)) : 0`. -/
def vector_reserve (alloc : Nat → Bool) (v : Vec α) (n : Nat) : Outcome (Vec α) :=
  if n % SIZE_MOD > vector_capacity v then vector_resize alloc v n else .ok v

/-- `vector_shrink_to_fit(v)`:
`(v) == NULL ? NULL : vector_resize((v), vector_size(v))`. -/
def vector_shrink_to_fit (alloc : Nat → Bool) (v : Vec α) : Outcome (Vec α) :=
  match v with
  | none => .ok none
  | some h => vector_resize alloc (some h) h.size

/-- `vector_push(v, e)`:
`(vector__maybegrow((v), 1), (v)[vector__size(v)++] = (e))`. -/
def vector_push (alloc : Nat → Bool) (v : Vec α) (e : α) : Outcome (Vec α) :=
  match vector__maybegrow alloc v 1 with
  | .ok none => .ub
  | .ok (some h) =>
    if h.size < h.data.length then
      .ok (some ⟨addw h.size 1, h.capacity, h.data.set h.size (some e)⟩)
    else .ub
  | .fatal msg st => .fatal msg st
  | .ub => .ub

/-- `vector_pop(v)`: `((v)[--vector__size(v)])`; the value read and the
buffer left behind. -/
def vector_pop (v : Vec α) : Outcome (Option α × Vec α) :=
  match v with
  | none => .ub
  | some h =>
    let size := subw h.size 1
    match h.data[size]? with
    | some x => .ok (x, some ⟨size, h.capacity, h.data⟩)
    | none => .ub

/-- `vector_insert(v, i, e)`; the value of the expression and the buffer. -/
def vector_insert (alloc : Nat → Bool) (v : Vec α) (i : Nat) (e : α) :
    Outcome (Nat × Vec α) :=
  match v with
  | none => .ok (0, none)
  | some h0 =>
    if i % SIZE_MOD ≥ h0.size then .ok (0, some h0)
    else
      match vector__maybegrow alloc (some h0) 1 with
      | .ok none => .ub
      | .ok (some h) =>
        match vector__shift h (i % SIZE_MOD) 1 with
        | .ok h1 =>
          if i < h1.data.length then
            .ok (addw h1.size 1, some ⟨addw h1.size 1, h1.capacity, h1.data.set i (some e)⟩)
          else .ub
        | .fatal msg st => .fatal msg st
        | .ub => .ub
      | .fatal msg st => .fatal msg st
      | .ub => .ub

/-- `vector_remove(v, i)`; the value of the expression and the buffer. -/
def vector_remove (v : Vec α) (i : Nat) : Outcome (Nat × Vec α) :=
  match v with
  | none => .ok (0, none)
  | some h =>
    if i % SIZE_MOD ≥ h.size then .ok (0, some h)
    else
      match vector__shift h ((i + 1) % SIZE_MOD) (-1) with
      | .ok h1 => .ok (subw h1.size 1, some ⟨subw h1.size 1, h1.capacity, h1.data⟩)
      | .fatal msg st => .fatal msg st
      | .ub => .ub

/-- `vector_erase(v, i, n)`; the value of the expression and the buffer. -/
def vector_erase (v : Vec α) (i n : Nat) : Outcome (Nat × Vec α) :=
  match v with
  | none => .ok (0, none)
  | some h =>
    if i % SIZE_MOD ≥ subw h.size n then .ok (0, some h)
    else
      match vector__shift h ((i + n) % SIZE_MOD) (toLong (0 - (n : Int))) with
      | .ok h1 => .ok (subw h1.size n, some ⟨subw h1.size n, h1.capacity, h1.data⟩)
      | .fatal msg st => .fatal msg st
      | .ub => .ub

/-- `vector_clear(v)`: `((v) == NULL ? 0 : (vector__size (v) = 0))`. -/
def vector_clear (v : Vec α) : Vec α :=
  match v with
  | none => none
  | some h => some ⟨0, h.capacity, h.data⟩

/-- An allocator that grants every request. -/
def grant : Nat → Bool := fun _ => true

/-- `sizeof (struct vector__header)`: the two `size_t` fields. -/
def HEADER_SIZE : Nat := 16

namespace Bytes

/-- The byte count `elems * elem_size + sizeof (struct vector__header)` that
`vector__resize_f` hands to `realloc`, computed in `size_t`. -/
def request (elems elem_size : Nat) : Nat :=
  (elems * elem_size + HEADER_SIZE) % SIZE_MOD

/-- Number of element slots a block of `bytes` bytes holds behind the
header. -/
def slots (bytes elem_size : Nat) : Nat :=
  (bytes - HEADER_SIZE) / elem_size

/-- `vector__resize_f(data, elems, elem_size)` with the request counted in
bytes, as the source computes it: `realloc` is asked for
`request elems elem_size` bytes (`alloc` tells whether it grants that many),
the block it returns holds `slots` element slots, which are fewer than
`elems` when the byte count wrapped, and the header records
`capacity = elems` all the same.  A block shorter than the header makes the
header writes undefined. -/
def vector__resize_f (alloc : Nat → Bool) (data : Vec α) (elems elem_size : Nat) :
    Outcome (Vec α) :=
  let bytes := request elems elem_size
  if alloc bytes then
    if bytes < HEADER_SIZE then .ub
    else
      match data with
      | none => .ok (some ⟨0, elems, List.replicate (slots bytes elem_size) none⟩)
      | some h =>
        let size := if elems < h.size then elems else h.size
        .ok (some ⟨size, elems, realloc_slots h.data (slots bytes elem_size)⟩)
  else
    .fatal "vector__resize_f: allocation failed\n" 1

/-- `vector__grow_f(data, size, elem_size)` over the byte-counted
`vector__resize_f`. -/
def vector__grow_f (alloc : Nat → Bool) (data : Vec α) (size elem_size : Nat) :
    Outcome (Vec α) :=
  let min_needed := addw (vector_size data) size
  let default_growth := shlw (vector_capacity data)
  let new_capacity := if default_growth > min_needed then default_growth else min_needed
  Bytes.vector__resize_f alloc data new_capacity elem_size

/-- `vector_resize(v, n)`, with `elem_size` for `sizeof(*(v))`. -/
def vector_resize (alloc : Nat → Bool) (v : Vec α) (n elem_size : Nat) : Outcome (Vec α) :=
  Bytes.vector__resize_f alloc v (n % SIZE_MOD) elem_size

/-- `vector_reserve(v, n)`, with `elem_size` for `sizeof(*(v))`. -/
def vector_reserve (alloc : Nat → Bool) (v : Vec α) (n elem_size : Nat) : Outcome (Vec α) :=
  if n % SIZE_MOD > vector_capacity v then Bytes.vector_resize alloc v n elem_size else .ok v

end Bytes

/-- An allocator that refuses every request. -/
def deny : Nat → Bool := fun _ => false

/-- Modulus of `unsigned` arithmetic (32 bits on the target). -/
def UINT_MOD : Nat := 2 ^ 32

/-- The read `(v)[k]` of an element: outside the allocation, through `NULL`
or from a slot that was never written it is undefined. -/
def vector_at (v : Vec α) (k : Nat) : Outcome α :=
  match v with
  | none => .ub
  | some h =>
    match h.data[k]? with
    | some (some x) => .ok x
    | _ => .ub

/-- `read_input (out)` of `day_1_2.c`: one `vector_push (*out, n)` for each
value `n` that `strtol` returns for a line read by `fgets`.  The input stream
is the list of these values. -/
def read_input (alloc : Nat → Bool) (out : Vec Int) (lines : List Int) : Outcome (Vec Int) :=
  match lines with
  | [] => .ok out
  | n :: rest =>
    match vector_push alloc out n with
    | .ok w => read_input alloc w rest
    | .fatal msg st => .fatal msg st
    | .ub => .ub

/-- Number of calls of `vector__grow_f` made by the pushes of `read_input`:
`vector__maybegrow` calls it once for each push at which `vector__needgrow`
holds. -/
def grow_calls (alloc : Nat → Bool) (out : Vec Int) (lines : List Int) : Nat :=
  match lines with
  | [] => 0
  | n :: rest =>
    (if vector__needgrow out 1 then 1 else 0) +
      match vector_push alloc out n with
      | .ok w => grow_calls alloc w rest
      | _ => 0

/-- The counting loop of `main`:
`for (i = 0; i < vector_size (input) - 3; ++i)` with the body reading
`input[i] .. input[i+3]` and incrementing the `unsigned inc` when `d > a`.
The first argument bounds the number of iterations still to run; `main`
passes the loop bound itself, which the loop cannot exceed. -/
def count_loop (input : Vec Int) : Nat → Nat → Nat → Outcome Nat
  | 0, _, inc => .ok inc
  | fuel + 1, i, inc =>
    if i < subw (vector_size input) 3 then
      match vector_at input i, vector_at input (addw i 1), vector_at input (addw i 2),
        vector_at input (addw i 3) with
      | .ok a, .ok _, .ok _, .ok d =>
        count_loop input fuel (addw i 1) (if d > a then (inc + 1) % UINT_MOD else inc)
      | _, _, _, _ => .ub
    else .ok inc

/-- `main` of `day_1_2.c`: reads the input into a buffer that starts as
`NULL`, runs the counting loop and prints `inc` with `%u`; the result is the
number printed.  (`vector_free` releases the block afterwards and prints
nothing.) -/
def main (alloc : Nat → Bool) (lines : List Int) : Outcome Nat :=
  match read_input alloc none lines with
  | .ok input => count_loop input (subw (vector_size input) 3) 0 0
  | .fatal msg st => .fatal msg st
  | .ub => .ub

/-- Number of indices `i` with `i + 3 < length xs` and `xs[i+3] > xs[i]`: the
width-4 windows whose last element exceeds the first. -/
def window_increases (xs : List Int) : Nat :=
  (List.range (xs.length - 3)).countP (fun i => decide (xs.getD i 0 < xs.getD (i + 3) 0))

/-- Number of indices `i` at which the sum of the three measurements
starting at `i + 1` exceeds the sum of the three starting at `i`, over exact
integers: the test `b + c + d > a + b + c` that `main` leaves commented
out. -/
def sum_increases (xs : List Int) : Nat :=
  (List.range (xs.length - 3)).countP (fun i =>
    decide (xs.getD i 0 + xs.getD (i + 1) 0 + xs.getD (i + 2) 0 <
      xs.getD (i + 1) 0 + xs.getD (i + 2) 0 + xs.getD (i + 3) 0))

/-- An input stream of `6 * m + 3` lines: `m` blocks `0, 0, 0, 1, 1, 1`
followed by `0, 0, 0`. -/
def zigzag_input (m : Nat) : List Int :=
  (List.replicate m [0, 0, 0, 1, 1, 1]).flatten ++ [0, 0, 0]

/-- The buffer operations a caller can issue one after the other. -/
inductive Op (α : Type) where
  | push (e : α) : Op α
  | pop : Op α
  | insert (i : Nat) (e : α) : Op α
  | remove (i : Nat) : Op α
  | eraseRange (i n : Nat) : Op α
  | clear : Op α
  | resize (n : Nat) : Op α
  | reserve (n : Nat) : Op α
  | shrinkToFit : Op α
  deriving DecidableEq, Repr

/-- The handle a caller holds after one operation (the value the expression
yields is dropped). -/
def step (alloc : Nat → Bool) (v : Vec α) (op : Op α) : Outcome (Vec α) :=
  match op with
  | .push e => vector_push alloc v e
  | .pop => (vector_pop v).bind (fun r => .ok r.2)
  | .insert i e => (vector_insert alloc v i e).bind (fun r => .ok r.2)
  | .remove i => (vector_remove v i).bind (fun r => .ok r.2)
  | .eraseRange i n => (vector_erase v i n).bind (fun r => .ok r.2)
  | .clear => .ok (vector_clear v)
  | .resize n => vector_resize alloc v n
  | .reserve n => vector_reserve alloc v n
  | .shrinkToFit => vector_shrink_to_fit alloc v

/-- What the caller owes an operation: `pop` needs a buffer with `size > 0`,
`eraseRange` a count of at most `size`. -/
def Pre (v : Vec α) (op : Op α) : Prop :=
  match op with
  | .pop => 0 < vector_size v
  | .eraseRange _ n => n ≤ vector_size v
  | _ => True

/-- The index and count arguments of an operation are machine integers. -/
def MachineArgs (op : Op α) : Prop :=
  match op with
  | .insert i _ => i < SIZE_MOD
  | .remove i => i < SIZE_MOD
  | .eraseRange i n => i < SIZE_MOD ∧ n < SIZE_MOD
  | _ => True

/-- The handles a caller can hold: `NULL`, the result of `vector_create`, and
whatever an operation whose precondition is met returns from such a handle. -/
inductive Reach (alloc : Nat → Bool) : Vec α → Prop where
  | null : Reach alloc none
  | create (n : Nat) (v : Vec α) : vector_create alloc n = .ok v → Reach alloc v
  | step (v w : Vec α) (op : Op α) :
      Reach alloc v → Pre v op → step alloc v op = .ok w → Reach alloc w

/-- Representation invariant of a header: the live elements fit the storage,
the storage has `capacity` slots, and `capacity` is a `size_t`. -/
def WFh (h : vector__header α) : Prop :=
  h.size ≤ h.capacity ∧ h.data.length = h.capacity ∧ h.capacity < SIZE_MOD

/-- Representation invariant of a handle (`NULL` has nothing to satisfy). -/
def WF (v : Vec α) : Prop :=
  match v with
  | none => True
  | some h => WFh h

instance (h : vector__header α) : Decidable (WFh h) :=
  inferInstanceAs (Decidable (_ ∧ _ ∧ _))

instance (v : Vec α) : Decidable (WF v) :=
  match v with
  | none => isTrue trivial
  | some h => inferInstanceAs (Decidable (WFh h))

instance (v : Vec α) (op : Op α) : Decidable (Pre v op) :=
  match op with
  | .push _ => isTrue trivial
  | .pop => inferInstanceAs (Decidable (0 < vector_size v))
  | .insert _ _ => isTrue trivial
  | .remove _ => isTrue trivial
  | .eraseRange _ n => inferInstanceAs (Decidable (n ≤ vector_size v))
  | .clear => isTrue trivial
  | .resize _ => isTrue trivial
  | .reserve _ => isTrue trivial
  | .shrinkToFit => isTrue trivial

end Defs

/-! ## Arithmetic, list and representation lemmas -/

section Aux

variable {α : Type}

theorem SIZE_MOD_eq : SIZE_MOD = 18446744073709551616 := by
  simp [SIZE_MOD]

theorem addw_lt (a b : Nat) : addw a b < SIZE_MOD := by
  unfold addw; exact Nat.mod_lt _ (by simp [SIZE_MOD])

theorem shlw_lt (a : Nat) : shlw a < SIZE_MOD := by
  unfold shlw; exact Nat.mod_lt _ (by simp [SIZE_MOD])

theorem subw_lt (a b : Nat) : subw a b < SIZE_MOD := by
  unfold subw; rw [SIZE_MOD_eq]; split <;> omega

theorem addw_le (a b : Nat) : addw a b ≤ a + b := by
  unfold addw; exact Nat.mod_le _ _

theorem addw_eq {a b : Nat} (h : a + b < SIZE_MOD) : addw a b = a + b := by
  unfold addw; exact Nat.mod_eq_of_lt h

theorem subw_eq {a b : Nat} (ha : a < SIZE_MOD) (hb : b ≤ a) : subw a b = a - b := by
  unfold subw; rw [SIZE_MOD_eq] at *; split <;> omega

theorem realloc_slots_length (old : List (Option α)) (elems : Nat) :
    (realloc_slots old elems).length = elems := by
  simp [realloc_slots]; omega

theorem memmove_ok {mem d : List (Option α)} {dst src count : Nat}
    (h : memmove mem dst src count = .ok d) :
    dst + count ≤ mem.length ∧ src + count ≤ mem.length ∧
      d = mem.take dst ++ (mem.drop src).take count ++ mem.drop (dst + count) := by
  unfold memmove at h
  split at h
  · rename_i hb
    cases h
    exact ⟨hb.1, hb.2, rfl⟩
  · cases h

theorem memmove_length {mem d : List (Option α)} {dst src count : Nat}
    (h : memmove mem dst src count = .ok d) : d.length = mem.length := by
  obtain ⟨h1, h2, rfl⟩ := memmove_ok h
  simp
  omega

theorem vector__shift_ok {h h1 : vector__header α} {index : Nat} {diff : Int}
    (hs : vector__shift h index diff = .ok h1) :
    h1.size = h.size ∧ h1.capacity = h.capacity ∧ h1.data.length = h.data.length ∧
      memmove h.data (((index : Int) + diff) % (SIZE_MOD : Int)).toNat index
        (subw h.size index) = .ok h1.data := by
  simp only [vector__shift] at hs
  split at hs
  · rename_i d hd
    cases hs
    exact ⟨rfl, rfl, memmove_length hd, hd⟩
  · cases hs
  · cases hs

theorem vector__resize_f_WF {alloc : Nat → Bool} {data w : Vec α} {elems : Nat}
    (he : elems < SIZE_MOD) (h : vector__resize_f alloc data elems = .ok w) :
    WF w ∧ w ≠ none := by
  unfold vector__resize_f at h
  split at h
  · cases data with
    | none =>
      cases h
      simp [WF, WFh, he]
    | some hd =>
      cases h
      simp only [WF, WFh, realloc_slots_length, he, ne_eq, reduceCtorEq, not_false_eq_true,
        and_true, true_and]
      split <;> omega
  · cases h

theorem vector__grow_f_WF {alloc : Nat → Bool} {data w : Vec α} {n : Nat}
    (h : vector__grow_f alloc data n = .ok w) : WF w ∧ w ≠ none := by
  simp only [vector__grow_f] at h
  refine vector__resize_f_WF ?_ h
  split
  · exact shlw_lt _
  · exact addw_lt _ _

theorem vector__maybegrow_WF {alloc : Nat → Bool} {v w : Vec α} {n : Nat}
    (hv : WF v) (h : vector__maybegrow alloc v n = .ok w) : WF w := by
  unfold vector__maybegrow at h
  split at h
  · exact (vector__grow_f_WF h).1
  · cases h; exact hv

theorem take_succ_set (l : List α) (k : Nat) (x : α) (hk : k < l.length) :
    (l.set k x).take (k + 1) = l.take k ++ [x] := by
  apply List.ext_getElem?
  intro j
  simp only [List.getElem?_take, List.getElem?_set, List.getElem?_append, List.length_take,
    List.getElem?_cons]
  by_cases h1 : j < k
  · have : ¬ k = j := by omega
    simp [h1, this, hk, Nat.lt_succ_of_lt h1, Nat.min_eq_left (Nat.le_of_lt hk)]
  · by_cases h2 : j = k
    · subst h2
      simp [hk, Nat.min_eq_left (Nat.le_of_lt hk)]
    · have : ¬ j < k + 1 := by omega
      have h3 : ¬ j < min k l.length := by omega
      have h4 : ¬ j - min k l.length = 0 := by omega
      simp [this, h3, h4]

theorem take_set_self (l : List α) (k : Nat) (x : α) : (l.set k x).take k = l.take k := by
  apply List.ext_getElem?
  intro j
  simp only [List.getElem?_take, List.getElem?_set]
  by_cases h1 : j < k
  · have : ¬ k = j := by omega
    simp [h1, this]
  · simp [h1]

theorem take_realloc_slots (old : List (Option α)) (elems k : Nat)
    (h1 : k ≤ elems) (h2 : k ≤ old.length) :
    (realloc_slots old elems).take k = old.take k := by
  unfold realloc_slots
  rw [List.take_append_of_le_length (by simp; omega), List.take_take, Nat.min_eq_left h1]

theorem insert_slots (data : List α) (i size : Nat) (x : α)
    (hi : i < size) (hs : size + 1 ≤ data.length) :
    ((data.take (i + 1) ++ (data.drop i).take (size - i) ++ data.drop (i + 1 + (size - i))).set i x).take
        (size + 1) =
      (data.take size).take i ++ x :: (data.take size).drop i := by
  apply List.ext_getElem?
  intro j
  simp only [List.getElem?_take, List.getElem?_set, List.getElem?_append, List.length_take,
    List.getElem?_cons, List.getElem?_drop, List.length_append, List.length_drop, List.length_set]
  have e1 : min (i + 1) data.length = i + 1 := by omega
  have e2 : min (size - i) (data.length - i) = size - i := by omega
  have e3 : min i (min size data.length) = i := by omega
  rw [e1, e2, e3]
  by_cases h1 : j < i
  · have : ¬ i = j := by omega
    simp [h1, this, show j < size + 1 by omega, show j < i + 1 by omega, show j < i + 1 + (size - i) by omega, show j < size by omega]
  · by_cases h2 : j = i
    · subst h2
      simp [show j < size + 1 by omega, show j < j + 1 + (size - j) + (data.length - (j + 1 + (size - j))) by omega]
    · by_cases h3 : j < size + 1
      · have : ¬ i = j := by omega
        have h5 : ¬ j - i = 0 := by omega
        have h6 : i + (j - (i + 1)) = j - 1 := by omega
        have h7 : i + (j - i - 1) = j - 1 := by omega
        simp [h1, this, h3, show ¬ j < i + 1 by omega, show j < i + 1 + (size - i) by omega, h5, h6, h7,
          show j - (i + 1) < size - i by omega, show j - 1 < size by omega] 
      · have h5 : ¬ j - i = 0 := by omega
        have h7 : i + (j - i - 1) = j - 1 := by omega
        simp [h1, h3, h5, h7, show ¬ j - 1 < size by omega]

theorem erase_slots (data : List α) (i n size : Nat) (h : i + n ≤ size) (hs : size ≤ data.length) :
    (data.take i ++ (data.drop (i + n)).take (size - (i + n)) ++
        data.drop (i + (size - (i + n)))).take (size - n) =
      (data.take size).take i ++ (data.take size).drop (i + n) := by
  rw [List.take_append_of_le_length (by simp; omega), List.take_of_length_le (by simp; omega),
    List.take_take, Nat.min_eq_left (by omega), List.drop_take]

theorem memmove_eq (mem : List (Option α)) (dst src count : Nat)
    (h1 : dst + count ≤ mem.length) (h2 : src + count ≤ mem.length) :
    memmove mem dst src count =
      .ok (mem.take dst ++ (mem.drop src).take count ++ mem.drop (dst + count)) := by
  unfold memmove
  rw [if_pos ⟨h1, h2⟩]

theorem vector__shift_eq (h : vector__header α) (index : Nat) (diff : Int) (d count : Nat)
    (hd : (((index : Int) + diff) % (SIZE_MOD : Int)).toNat = d)
    (hc : subw h.size index = count)
    (h1 : d + count ≤ h.data.length) (h2 : index + count ≤ h.data.length) :
    vector__shift h index diff =
      .ok ⟨h.size, h.capacity,
        h.data.take d ++ (h.data.drop index).take count ++ h.data.drop (d + count)⟩ := by
  simp only [vector__shift, hc, hd, memmove_eq h.data d index count h1 h2]

theorem vector__maybegrow_spec (alloc : Nat → Bool) (v : Vec α) (n : Nat) (hv : WF v)
    (hs : vector_size v + n < SIZE_MOD) (ha : ∀ k, alloc k = true) :
    ∃ g, vector__maybegrow alloc v n = .ok (some g) ∧ WFh g ∧ g.size = vector_size v ∧
      g.size + n ≤ g.capacity ∧ g.data.take g.size = elements v := by
  unfold vector__maybegrow
  by_cases hg : vector__needgrow v n = true
  · rw [if_pos hg]
    simp only [vector__grow_f, vector__resize_f, ha, if_true]
    have hadd := addw_eq hs
    cases v with
    | none =>
      refine ⟨_, rfl, ?_, rfl, ?_, ?_⟩
      · refine ⟨Nat.zero_le _, by simp, ?_⟩
        split
        · exact shlw_lt _
        · exact addw_lt _ _
      · simp only [vector_size] at hadd ⊢
        split <;> omega
      · simp [elements]
    | some h =>
      simp only [vector_size, vector_capacity] at hadd hs ⊢
      have hw : WFh h := hv
      obtain ⟨w1, w2, w3⟩ := hw
      have hcap : h.size + n ≤
          (if shlw h.capacity > addw h.size n then shlw h.capacity else addw h.size n) := by
        split <;> omega
      have hlt : (if shlw h.capacity > addw h.size n then shlw h.capacity else addw h.size n)
          < SIZE_MOD := by
        split
        · exact shlw_lt _
        · exact addw_lt _ _
      generalize (if shlw h.capacity > addw h.size n then shlw h.capacity
        else addw h.size n) = X at hcap hlt ⊢
      refine ⟨_, rfl, ?_, ?_, ?_, ?_⟩
      · refine ⟨?_, realloc_slots_length _ _, hlt⟩
        simp only
        split <;> omega
      · simp only
        rw [if_neg (by omega)]
      · simp only
        rw [if_neg (by omega)]
        exact hcap
      · simp only [elements]
        rw [if_neg (by omega)]
        exact take_realloc_slots _ _ _ (by omega) (by omega)
  · rw [if_neg hg]
    cases v with
    | none => simp [vector__needgrow] at hg
    | some h =>
      simp only [vector__needgrow, decide_eq_true_eq, not_le] at hg
      simp only [vector_size] at hs ⊢
      rw [addw_eq hs] at hg
      exact ⟨h, rfl, hv, rfl, by omega, rfl⟩

theorem vector_push_WF {alloc : Nat → Bool} {v w : Vec α} {e : α}
    (hv : WF v) (h : vector_push alloc v e = .ok w) : WF w := by
  unfold vector_push at h
  split at h
  · cases h
  · rename_i g hg
    have hw : WFh g := vector__maybegrow_WF hv hg
    split at h
    · rename_i hlt
      cases h
      have := addw_le g.size 1
      simp only [WF, WFh, List.length_set] at hw ⊢
      omega
    · cases h
  · cases h
  · cases h

theorem vector_pop_WF {v w : Vec α} {x : Option α}
    (hv : WF v) (h : vector_pop v = .ok (x, w)) : WF w := by
  unfold vector_pop at h
  cases v with
  | none => cases h
  | some g =>
    simp only at h
    split at h
    · rename_i y hy
      cases h
      have hlt := (List.getElem?_eq_some_iff.mp hy).1
      simp only [WF, WFh] at hv ⊢
      omega
    · cases h

theorem vector_insert_WF {alloc : Nat → Bool} {v w : Vec α} {i r : Nat} {e : α}
    (hv : WF v) (h : vector_insert alloc v i e = .ok (r, w)) : WF w := by
  unfold vector_insert at h
  cases v with
  | none => cases h; trivial
  | some g0 =>
    simp only at h
    split at h
    · cases h; exact hv
    · split at h
      · cases h
      · rename_i g hg
        have hw : WFh g := vector__maybegrow_WF hv hg
        split at h
        · rename_i h1 hs
          obtain ⟨e1, e2, e3, hm⟩ := vector__shift_ok hs
          obtain ⟨b2, -, -⟩ := memmove_ok hm
          split at h
          · rename_i hlen
            cases h
            have ha := addw_le g.size 1
            simp only [WF, WFh, List.length_set, e1, e2, e3] at hw hlen ⊢
            refine ⟨?_, hw.2.1, hw.2.2⟩
            by_cases hi2 : i % SIZE_MOD < g.size
            · have hsub := subw_eq (by omega) (Nat.le_of_lt hi2)
              have hd : (((i % SIZE_MOD : Nat) : Int) + 1) % (SIZE_MOD : Int) =
                  ((i % SIZE_MOD + 1 : Nat) : Int) := by
                rw [SIZE_MOD_eq] at *
                omega
              rw [hsub, hd, Int.toNat_ofNat] at b2
              omega
            · have hle : i % SIZE_MOD ≤ i := Nat.mod_le _ _
              omega
          · cases h
        · cases h
        · cases h
      · cases h
      · cases h

theorem vector_remove_WF {v w : Vec α} {i r : Nat}
    (hv : WF v) (h : vector_remove v i = .ok (r, w)) : WF w := by
  unfold vector_remove at h
  cases v with
  | none => cases h; trivial
  | some g =>
    simp only at h
    split at h
    · cases h; exact hv
    · rename_i hi
      have hpos : 0 < g.size := by omega
      split at h
      · rename_i h1 hs
        obtain ⟨e1, e2, e3, -⟩ := vector__shift_ok hs
        cases h
        simp only [WF, WFh, e1, e2, e3] at hv ⊢
        have hsub : subw g.size 1 = g.size - 1 := subw_eq (by omega) (by omega)
        omega
      · cases h
      · cases h

theorem vector_erase_WF {v w : Vec α} {i n r : Nat}
    (hv : WF v) (hn : n ≤ vector_size v) (h : vector_erase v i n = .ok (r, w)) : WF w := by
  unfold vector_erase at h
  cases v with
  | none => cases h; trivial
  | some g =>
    simp only at h
    split at h
    · cases h; exact hv
    · split at h
      · rename_i h1 hs
        obtain ⟨e1, e2, e3, -⟩ := vector__shift_ok hs
        cases h
        simp only [WF, WFh, e1, e2, e3, vector_size] at hv hn ⊢
        have hsub : subw g.size n = g.size - n := subw_eq (by omega) hn
        omega
      · cases h
      · cases h

theorem vector_resize_WF {alloc : Nat → Bool} {v w : Vec α} {n : Nat}
    (h : vector_resize alloc v n = .ok w) : WF w :=
  (vector__resize_f_WF (Nat.mod_lt _ (by simp [SIZE_MOD])) h).1

theorem step_WF {alloc : Nat → Bool} {v w : Vec α} {op : Op α}
    (hv : WF v) (hp : Pre v op) (h : step alloc v op = .ok w) : WF w := by
  cases op with
  | push e => exact vector_push_WF hv h
  | pop =>
    simp only [step, Outcome.bind] at h
    split at h
    · rename_i b hb
      cases h
      exact vector_pop_WF (x := b.1) hv hb
    · cases h
    · cases h
  | insert i e =>
    simp only [step, Outcome.bind] at h
    split at h
    · rename_i b hb
      cases h
      exact vector_insert_WF (r := b.1) hv hb
    · cases h
    · cases h
  | remove i =>
    simp only [step, Outcome.bind] at h
    split at h
    · rename_i b hb
      cases h
      exact vector_remove_WF (r := b.1) hv hb
    · cases h
    · cases h
  | eraseRange i n =>
    simp only [step, Outcome.bind] at h
    split at h
    · rename_i b hb
      cases h
      exact vector_erase_WF (r := b.1) hv hp hb
    · cases h
    · cases h
  | clear =>
    simp only [step] at h
    cases h
    cases v with
    | none => trivial
    | some g =>
      simp only [WF, WFh, vector_clear] at hv ⊢
      omega
  | resize n => exact vector_resize_WF h
  | reserve n =>
    simp only [step, vector_reserve] at h
    split at h
    · exact vector_resize_WF h
    · cases h; exact hv
  | shrinkToFit =>
    simp only [step, vector_shrink_to_fit] at h
    cases v with
    | none => cases h; trivial
    | some g => exact vector_resize_WF h

theorem Reach_WF {alloc : Nat → Bool} {v : Vec α} (h : Reach alloc v) : WF v := by
  induction h with
  | null => trivial
  | create n v hc =>
    simp only [vector_create, vector__create] at hc
    split at hc
    · cases hc
      have : n % SIZE_MOD < SIZE_MOD := Nat.mod_lt _ (by simp [SIZE_MOD])
      simp [WF, WFh, this]
    · cases hc
  | step v w op _ hp hs ih => exact step_WF ih hp hs

theorem shift_dst_up {i : Nat} (hi : i + 1 < SIZE_MOD) :
    (((i : Int) + 1) % (SIZE_MOD : Int)).toNat = i + 1 := by
  rw [SIZE_MOD_eq] at *
  omega

theorem shift_dst_down {i n : Nat} (hi : i + n < SIZE_MOD) :
    ((((i + n : Nat) : Int) + toLong (0 - (n : Int))) % (SIZE_MOD : Int)).toNat = i := by
  unfold toLong
  rw [SIZE_MOD_eq] at *
  omega

theorem shift_dst_pred {i : Nat} (hi : i + 1 < SIZE_MOD) :
    ((((i + 1 : Nat) : Int) + -1) % (SIZE_MOD : Int)).toNat = i := by
  rw [SIZE_MOD_eq] at *
  omega

theorem vector_insert_spec (alloc : Nat → Bool) (h0 : vector__header α) (i : Nat) (e : α)
    (hv : WFh h0) (hi : i < h0.size) (hs : h0.size + 1 < SIZE_MOD) (ha : ∀ k, alloc k = true) :
    ∃ w, vector_insert alloc (some h0) i e = .ok (h0.size + 1, some w) ∧ WFh w ∧
      w.size = h0.size + 1 ∧
      w.data.take w.size =
        (h0.data.take h0.size).take i ++ some e :: (h0.data.take h0.size).drop i := by
  obtain ⟨g, hg, hw, h1, h2, h3⟩ := vector__maybegrow_spec alloc (some h0) 1 hv hs ha
  obtain ⟨w1, w2, w3⟩ := hw
  have h1' : g.size = h0.size := h1
  have h3' : g.data.take g.size = h0.data.take h0.size := h3
  have hm : i % SIZE_MOD = i := Nat.mod_eq_of_lt (by omega)
  have hsh := vector__shift_eq g i 1 (i + 1) (g.size - i) (shift_dst_up (by omega))
    (subw_eq (by omega) (by omega)) (by omega) (by omega)
  refine ⟨⟨g.size + 1, g.capacity, (g.data.take (i + 1) ++ (g.data.drop i).take (g.size - i) ++
    g.data.drop (i + 1 + (g.size - i))).set i (some e)⟩, ?_, ?_, ?_, ?_⟩
  · unfold vector_insert
    simp only [hm]
    rw [if_neg (by omega), hg]
    simp only [hsh]
    rw [if_pos (by simp; omega), addw_eq (by omega), h1']
  · refine ⟨by simp only; omega, ?_, w3⟩
    simp only [List.length_set, List.length_append, List.length_take, List.length_drop]
    omega
  · simp only [h1']
  · simp only
    rw [insert_slots g.data i g.size (some e) (by omega) (by omega), h3']

theorem vector_remove_spec (h : vector__header α) (i : Nat) (hv : WFh h) (hi : i < h.size) :
    vector_remove (some h) i = .ok (h.size - 1, some ⟨h.size - 1, h.capacity,
      h.data.take i ++ (h.data.drop (i + 1)).take (h.size - (i + 1)) ++
        h.data.drop (i + (h.size - (i + 1)))⟩) := by
  obtain ⟨w1, w2, w3⟩ := hv
  have hm : i % SIZE_MOD = i := Nat.mod_eq_of_lt (by omega)
  have hm1 : (i + 1) % SIZE_MOD = i + 1 := Nat.mod_eq_of_lt (by omega)
  have hsh := vector__shift_eq h (i + 1) (-1) i (h.size - (i + 1)) (shift_dst_pred (by omega))
    (subw_eq (by omega) (by omega)) (by omega) (by omega)
  unfold vector_remove
  simp only [hm, hm1]
  rw [if_neg (by omega)]
  simp only [hsh]
  rw [subw_eq (by omega) (by omega)]

theorem vector_erase_spec (h : vector__header α) (i n : Nat) (hv : WFh h) (hi : i + n < h.size) :
    vector_erase (some h) i n = .ok (h.size - n, some ⟨h.size - n, h.capacity,
      h.data.take i ++ (h.data.drop (i + n)).take (h.size - (i + n)) ++
        h.data.drop (i + (h.size - (i + n)))⟩) := by
  obtain ⟨w1, w2, w3⟩ := hv
  have hm : i % SIZE_MOD = i := Nat.mod_eq_of_lt (by omega)
  have hm1 : (i + n) % SIZE_MOD = i + n := Nat.mod_eq_of_lt (by omega)
  have hsub : subw h.size n = h.size - n := subw_eq (by omega) (by omega)
  have hsh := vector__shift_eq h (i + n) (toLong (0 - (n : Int))) i (h.size - (i + n))
    (shift_dst_down (by omega)) (subw_eq (by omega) (by omega)) (by omega) (by omega)
  unfold vector_erase
  simp only [hm, hm1, hsub]
  rw [if_neg (by omega)]
  simp only [hsh]
  rw [hsub]

theorem vector_remove_elements (h : vector__header α) (i : Nat) (hv : WFh h) (hi : i < h.size) :
    ∃ w, vector_remove (some h) i = .ok (h.size - 1, some w) ∧ WFh w ∧
      w.size = h.size - 1 ∧ w.capacity = h.capacity ∧
      w.data.take w.size = (h.data.take h.size).take i ++ (h.data.take h.size).drop (i + 1) := by
  refine ⟨_, vector_remove_spec h i hv hi, ?_, rfl, rfl, ?_⟩
  · obtain ⟨w1, w2, w3⟩ := hv
    refine ⟨by simp only; omega, ?_, w3⟩
    simp only [List.length_append, List.length_take, List.length_drop]
    omega
  · exact erase_slots h.data i 1 h.size (by omega) (by have := hv.1; have := hv.2.1; omega)

theorem vector_erase_elements (h : vector__header α) (i n : Nat) (hv : WFh h)
    (hi : i + n < h.size) :
    ∃ w, vector_erase (some h) i n = .ok (h.size - n, some w) ∧ WFh w ∧
      w.size = h.size - n ∧ w.capacity = h.capacity ∧
      w.data.take w.size = (h.data.take h.size).take i ++ (h.data.take h.size).drop (i + n) := by
  refine ⟨_, vector_erase_spec h i n hv hi, ?_, rfl, rfl, ?_⟩
  · obtain ⟨w1, w2, w3⟩ := hv
    refine ⟨by simp only; omega, ?_, w3⟩
    simp only [List.length_append, List.length_take, List.length_drop]
    omega
  · exact erase_slots h.data i n h.size (by omega) (by have := hv.1; have := hv.2.1; omega)

theorem vector_insert_reject (alloc : Nat → Bool) (v : Vec α) (i : Nat) (e : α)
    (hi : i < SIZE_MOD) (hr : v = none ∨ vector_size v ≤ i) :
    vector_insert alloc v i e = .ok (0, v) := by
  cases v with
  | none => rfl
  | some h =>
    have hle : h.size ≤ i := by
      rcases hr with hr | hr
      · cases hr
      · exact hr
    unfold vector_insert
    simp only [Nat.mod_eq_of_lt hi]
    rw [if_pos hle]

theorem vector_remove_reject (v : Vec α) (i : Nat)
    (hi : i < SIZE_MOD) (hr : v = none ∨ vector_size v ≤ i) :
    vector_remove v i = .ok (0, v) := by
  cases v with
  | none => rfl
  | some h =>
    have hle : h.size ≤ i := by
      rcases hr with hr | hr
      · cases hr
      · exact hr
    unfold vector_remove
    simp only [Nat.mod_eq_of_lt hi]
    rw [if_pos hle]

theorem vector_erase_reject (v : Vec α) (i n : Nat) (hi : i < SIZE_MOD)
    (hsz : vector_size v < SIZE_MOD) (hn : n ≤ vector_size v)
    (hr : v = none ∨ vector_size v ≤ i + n) :
    vector_erase v i n = .ok (0, v) := by
  cases v with
  | none => rfl
  | some h =>
    have hle : h.size ≤ i + n := by
      rcases hr with hr | hr
      · cases hr
      · exact hr
    have hsub : subw h.size n = h.size - n := subw_eq hsz hn
    have hn2 : n ≤ h.size := hn
    unfold vector_erase
    simp only [Nat.mod_eq_of_lt hi, hsub]
    rw [if_pos (by omega)]

theorem elements_length {v : Vec α} (hv : WF v) : (elements v).length = vector_size v := by
  cases v with
  | none => rfl
  | some h =>
    obtain ⟨w1, w2, -⟩ : WFh h := hv
    simp only [elements, vector_size, List.length_take]
    omega

theorem vector_push_eq (alloc : Nat → Bool) (v : Vec α) (e : α) (hv : WF v)
    (hs : vector_size v + 1 < SIZE_MOD) (ha : ∀ k, alloc k = true) :
    ∃ g, WFh g ∧ g.size = vector_size v ∧ g.size + 1 ≤ g.capacity ∧
      g.data.take g.size = elements v ∧
      vector_push alloc v e = .ok (some ⟨g.size + 1, g.capacity, g.data.set g.size (some e)⟩) := by
  obtain ⟨g, hg, hw, h1, h2, h3⟩ := vector__maybegrow_spec alloc v 1 hv hs ha
  refine ⟨g, hw, h1, h2, h3, ?_⟩
  obtain ⟨w1, w2, w3⟩ := hw
  unfold vector_push
  rw [hg]
  simp only
  rw [if_pos (by omega), addw_eq (by omega)]

theorem vector_pop_ok (h : vector__header α) (hv : WFh h) (hp : 0 < h.size) :
    ∃ x, vector_pop (some h) = .ok (x, some ⟨h.size - 1, h.capacity, h.data⟩) := by
  obtain ⟨w1, w2, w3⟩ := hv
  have hsub : subw h.size 1 = h.size - 1 := subw_eq (by omega) (by omega)
  have hlt : h.size - 1 < h.data.length := by omega
  refine ⟨h.data[h.size - 1], ?_⟩
  simp only [vector_pop, hsub, List.getElem?_eq_getElem hlt]

theorem vector__resize_f_ok (alloc : Nat → Bool) (v : Vec α) (n : Nat)
    (ha : ∀ k, alloc k = true) : ∃ w, vector__resize_f alloc v n = .ok w := by
  unfold vector__resize_f
  rw [if_pos (ha n)]
  cases v with
  | none => exact ⟨_, rfl⟩
  | some h => exact ⟨_, rfl⟩

theorem step_progress (alloc : Nat → Bool) (v : Vec α) (op : Op α) (hv : WF v)
    (hp : Pre v op) (hm : MachineArgs op) (hs : vector_size v + 1 < SIZE_MOD)
    (ha : ∀ k, alloc k = true) : ∃ w, step alloc v op = .ok w := by
  cases op with
  | push e =>
    obtain ⟨g, -, -, -, -, hpush⟩ := vector_push_eq alloc v e hv hs ha
    exact ⟨_, hpush⟩
  | pop =>
    cases v with
    | none => exact absurd hp (Nat.lt_irrefl _)
    | some h =>
      obtain ⟨x, hx⟩ := vector_pop_ok h hv hp
      exact ⟨_, by simp only [step, hx, Outcome.bind]; rfl⟩
  | insert i e =>
    by_cases hlt : i < vector_size v
    · cases v with
      | none => exact absurd hlt (Nat.not_lt_zero _)
      | some h =>
        obtain ⟨w, hw, -⟩ := vector_insert_spec alloc h i e hv hlt hs ha
        exact ⟨_, by simp only [step, hw, Outcome.bind]; rfl⟩
    · have hr := vector_insert_reject alloc v i e hm (Or.inr (Nat.le_of_not_lt hlt))
      exact ⟨_, by simp only [step, hr, Outcome.bind]; rfl⟩
  | remove i =>
    by_cases hlt : i < vector_size v
    · cases v with
      | none => exact absurd hlt (Nat.not_lt_zero _)
      | some h =>
        have hw := vector_remove_spec h i hv hlt
        exact ⟨_, by simp only [step, hw, Outcome.bind]; rfl⟩
    · have hr := vector_remove_reject v i hm (Or.inr (Nat.le_of_not_lt hlt))
      exact ⟨_, by simp only [step, hr, Outcome.bind]; rfl⟩
  | eraseRange i n =>
    by_cases hlt : i + n < vector_size v
    · cases v with
      | none => exact absurd hlt (Nat.not_lt_zero _)
      | some h =>
        have hw := vector_erase_spec h i n hv hlt
        exact ⟨_, by simp only [step, hw, Outcome.bind]; rfl⟩
    · have hr := vector_erase_reject v i n hm.1 (by omega) hp (Or.inr (Nat.le_of_not_lt hlt))
      exact ⟨_, by simp only [step, hr, Outcome.bind]; rfl⟩
  | clear => exact ⟨_, rfl⟩
  | resize n => exact vector__resize_f_ok alloc v _ ha
  | reserve n =>
    simp only [step, vector_reserve]
    split
    · exact vector__resize_f_ok alloc v _ ha
    · exact ⟨_, rfl⟩
  | shrinkToFit =>
    cases v with
    | none => exact ⟨_, rfl⟩
    | some h => exact vector__resize_f_ok alloc (some h) _ ha

theorem shlw_eq {a : Nat} (h : 2 * a < SIZE_MOD) : shlw a = 2 * a := by
  unfold shlw
  rw [Nat.mul_comm]
  exact Nat.mod_eq_of_lt h

theorem vector__resize_f_spec (alloc : Nat → Bool) (h : vector__header α) (k : Nat)
    (hv : WFh h) (hk : k < SIZE_MOD) (ha : alloc k = true) :
    ∃ w, vector__resize_f alloc (some h) k = .ok (some w) ∧ WFh w ∧ w.capacity = k ∧
      (k < h.size → w.size = k ∧ w.data.take w.size = (h.data.take h.size).take k) ∧
      (h.size ≤ k → w.size = h.size ∧ w.data.take w.size = h.data.take h.size) := by
  obtain ⟨w1, w2, w3⟩ := hv
  refine ⟨⟨if k < h.size then k else h.size, k, realloc_slots h.data k⟩, ?_, ?_, rfl, ?_, ?_⟩
  · simp only [vector__resize_f, ha, if_true]
  · refine ⟨?_, realloc_slots_length _ _, hk⟩
    simp only
    split <;> omega
  · intro hlt
    simp only [if_pos hlt, true_and]
    rw [take_realloc_slots _ _ _ (Nat.le_refl _) (by omega), List.take_take,
      Nat.min_eq_left (by omega)]
  · intro hle
    simp only [if_neg (Nat.not_lt.mpr hle), true_and]
    exact take_realloc_slots _ _ _ hle (by omega)

theorem vector__grow_f_spec (alloc : Nat → Bool) (v : Vec α) (n : Nat) (hv : WF v)
    (h2 : 2 * vector_capacity v < SIZE_MOD) (hs : vector_size v + n < SIZE_MOD)
    (ha : ∀ k, alloc k = true) :
    ∃ w, vector__grow_f alloc v n = .ok (some w) ∧ WFh w ∧
      w.capacity = max (2 * vector_capacity v) (vector_size v + n) ∧
      w.size = vector_size v ∧ w.data.take w.size = elements v := by
  have hnew : (if shlw (vector_capacity v) > addw (vector_size v) n then shlw (vector_capacity v)
      else addw (vector_size v) n) = max (2 * vector_capacity v) (vector_size v + n) := by
    rw [shlw_eq h2, addw_eq hs]
    split <;> omega
  have hlt : max (2 * vector_capacity v) (vector_size v + n) < SIZE_MOD := by omega
  simp only [vector__grow_f, hnew]
  cases v with
  | none =>
    refine ⟨⟨0, max (2 * vector_capacity (none : Vec α)) (vector_size (none : Vec α) + n),
      List.replicate (max (2 * vector_capacity (none : Vec α)) (vector_size (none : Vec α) + n))
        none⟩, ?_, ?_, rfl, rfl, ?_⟩
    · simp only [vector__resize_f, ha, if_true]
    · exact ⟨Nat.zero_le _, by simp, hlt⟩
    · simp [elements]
  | some h =>
    obtain ⟨w, hw, hwf, hcap, -, hge⟩ := vector__resize_f_spec alloc h _ hv hlt (ha _)
    have hle : h.size ≤ max (2 * h.capacity) (h.size + n) := by omega
    exact ⟨w, hw, hwf, hcap, (hge hle).1, (hge hle).2⟩

theorem vector__needgrow_iff (h : vector__header α) (n : Nat) (hs : h.size + n < SIZE_MOD) :
    vector__needgrow (some h) n = true ↔ h.capacity ≤ h.size + n := by
  simp only [vector__needgrow, decide_eq_true_eq, addw_eq hs, ge_iff_le]

theorem vector_push_spec (alloc : Nat → Bool) (v : Vec α) (e : α) (hv : WF v)
    (hs : vector_size v + 1 < SIZE_MOD) (h2 : 2 * vector_capacity v < SIZE_MOD)
    (ha : ∀ k, alloc k = true) :
    ∃ w, vector_push alloc v e = .ok (some w) ∧ WFh w ∧ w.size = vector_size v + 1 ∧
      w.data.take w.size = elements v ++ [some e] ∧
      w.capacity = if vector__needgrow v 1 = true
        then max (2 * vector_capacity v) (vector_size v + 1) else vector_capacity v := by
  by_cases hg : vector__needgrow v 1 = true
  · obtain ⟨g, hgrow, ⟨w1, w2, w3⟩, hcap, hsz, hel⟩ := vector__grow_f_spec alloc v 1 hv h2 hs ha
    have hfit : g.size < g.data.length := by omega
    refine ⟨⟨g.size + 1, g.capacity, g.data.set g.size (some e)⟩, ?_, ?_, ?_, ?_, ?_⟩
    · simp only [vector_push, vector__maybegrow, hg, if_true, hgrow]
      rw [if_pos hfit, addw_eq (by omega)]
    · refine ⟨by simp only; omega, by simp only [List.length_set]; exact w2, w3⟩
    · simp only [hsz]
    · simp only
      rw [take_succ_set _ _ _ hfit, hel]
    · simp only [hg, if_true, hcap]
  · cases v with
    | none => exact absurd rfl hg
    | some h =>
      obtain ⟨w1, w2, w3⟩ : WFh h := hv
      have hs' : h.size + 1 < SIZE_MOD := hs
      have hno : ¬ h.capacity ≤ h.size + 1 := fun hc => hg ((vector__needgrow_iff h 1 hs').mpr hc)
      have hfit : h.size < h.data.length := by omega
      refine ⟨⟨h.size + 1, h.capacity, h.data.set h.size (some e)⟩, ?_, ?_, rfl, ?_, ?_⟩
      · simp only [vector_push, vector__maybegrow, hg]
        simp only [Bool.false_eq_true, if_false]
        rw [if_pos hfit, addw_eq hs']
      · refine ⟨by simp only; omega, by simp only [List.length_set]; exact w2, w3⟩
      · simp only [elements]
        rw [take_succ_set _ _ _ hfit]
      · simp only [hg, vector_capacity]
        simp

theorem vector__needgrow_le (v : Vec α) (n : Nat) (hs : vector_size v + n < SIZE_MOD)
    (hg : vector__needgrow v n = true) : vector_capacity v ≤ vector_size v + n := by
  cases v with
  | none => exact Nat.zero_le _
  | some h => exact (vector__needgrow_iff h n hs).mp hg

theorem read_input_spec (alloc : Nat → Bool) (ha : ∀ k, alloc k = true) :
    ∀ (lines : List Int) (out : Vec Int), WF out →
      vector_size out + lines.length ≤ 2 ^ 62 →
      vector_capacity out ≤ 2 * vector_size out + 1 →
      ∃ w, read_input alloc out lines = .ok w ∧ WF w ∧
        vector_size w = vector_size out + lines.length ∧
        elements w = elements out ++ lines.map some ∧ (lines ≠ [] → w ≠ none) := by
  intro lines
  induction lines with
  | nil =>
    intro out hv _ _
    exact ⟨out, rfl, hv, rfl, by simp, fun h => absurd rfl h⟩
  | cons n rest ih =>
    intro out hv hlen hcap
    simp only [List.length_cons] at hlen
    have hM := SIZE_MOD_eq
    obtain ⟨w, hw, hwf, hsz, hel, hc⟩ :=
      vector_push_spec alloc out n hv (by omega) (by omega) ha
    have hc2 : w.capacity ≤ 2 * w.size + 1 := by
      rw [hc, hsz]
      split
      · rename_i hg
        have := vector__needgrow_le out 1 (by omega) hg
        omega
      · omega
    obtain ⟨u, hu, huf, husz, huel, -⟩ := ih (some w) hwf
      (by show w.size + rest.length ≤ 2 ^ 62; omega) hc2
    refine ⟨u, ?_, huf, ?_, ?_, ?_⟩
    · simp only [read_input, hw, hu]
    · rw [husz]
      show w.size + rest.length = vector_size out + (rest.length + 1)
      omega
    · rw [huel]
      show w.data.take w.size ++ rest.map some = elements out ++ (n :: rest).map some
      rw [hel]
      simp
    · intro _ hnone
      subst hnone
      have : vector_size (none : Vec Int) = w.size + rest.length := husz
      simp only [vector_size] at this
      omega

theorem grow_calls_pow (alloc : Nat → Bool) (ha : ∀ k, alloc k = true) :
    ∀ (lines : List Int) (h : vector__header Int) (c : Nat), WFh h → 1 ≤ h.size →
      h.capacity = 2 ^ c → h.capacity ≤ 2 * h.size →
      h.size + lines.length ≤ 2 ^ 62 →
      2 ^ (c + grow_calls alloc (some h) lines) ≤ 2 * (h.size + lines.length) := by
  intro lines
  induction lines with
  | nil =>
    intro h c _ _ hc hle _
    simp only [grow_calls, Nat.add_zero, List.length_nil]
    omega
  | cons n rest ih =>
    intro h c hv h1 hc hle hlen
    simp only [List.length_cons] at hlen ⊢
    have hM := SIZE_MOD_eq
    have hv' : WF (some h) := hv
    obtain ⟨w1, w2, w3⟩ := hv
    obtain ⟨w, hw, hwf, hsz, -, hcap⟩ :=
      vector_push_spec alloc (some h) n hv' (by show h.size + 1 < SIZE_MOD; omega)
        (by show 2 * h.capacity < SIZE_MOD; omega) ha
    have hsz' : w.size = h.size + 1 := hsz
    simp only [grow_calls, hw]
    by_cases hg : vector__needgrow (some h) 1 = true
    · have hneed := (vector__needgrow_iff h 1 (by omega)).mp hg
      rw [if_pos hg] at hcap ⊢
      have hcap' : w.capacity = 2 ^ (c + 1) := by
        rw [hcap, Nat.pow_succ, ← hc]
        show max (2 * h.capacity) (h.size + 1) = h.capacity * 2
        omega
      have := ih w (c + 1) hwf (by omega) hcap' (by rw [hcap', Nat.pow_succ, ← hc]; omega)
        (by omega)
      rw [show c + (1 + grow_calls alloc (some w) rest) = c + 1 + grow_calls alloc (some w) rest
        by omega]
      rw [show h.size + (rest.length + 1) = w.size + rest.length by omega]
      exact this
    · rw [if_neg hg] at hcap ⊢
      have hcap' : w.capacity = 2 ^ c := by rw [hcap]; exact hc
      have := ih w c hwf (by omega) hcap' (by rw [hcap', ← hc]; omega) (by omega)
      rw [Nat.zero_add, show h.size + (rest.length + 1) = w.size + rest.length by omega]
      exact this

theorem grow_calls_le_log (alloc : Nat → Bool) (ha : ∀ k, alloc k = true) (lines : List Int)
    (h1 : 1 ≤ lines.length) (h62 : lines.length ≤ 2 ^ 62) :
    grow_calls alloc none lines ≤ Nat.log 2 lines.length + 2 := by
  cases lines with
  | nil => simp at h1
  | cons n rest =>
    simp only [List.length_cons] at h62 ⊢
    obtain ⟨w, hw, hwf, hsz, -, hcap⟩ := vector_push_spec alloc (none : Vec Int) n trivial
      (by simp [vector_size, SIZE_MOD]) (by simp [vector_capacity, SIZE_MOD]) ha
    have hsz' : w.size = 1 := hsz
    have hcap' : w.capacity = 2 ^ 0 := by
      rw [hcap]
      simp [vector__needgrow, vector_capacity, vector_size]
    have hp := grow_calls_pow alloc ha rest w 0 hwf (by omega) hcap' (by rw [hcap']; omega)
      (by omega)
    simp only [grow_calls, hw, vector__needgrow, if_true]
    rw [Nat.zero_add, hsz'] at hp
    generalize grow_calls alloc (some w) rest = g at hp ⊢
    cases g with
    | zero => omega
    | succ k =>
      rw [Nat.pow_succ] at hp
      have hk : 2 ^ k ≤ rest.length + 1 := by omega
      have := Nat.le_log_of_pow_le (by decide : 1 < 2) hk
      omega

theorem UINT_MOD_eq : UINT_MOD = 4294967296 := by
  simp [UINT_MOD]

theorem vector_at_elements (h : vector__header Int) (xs : List Int) (hv : WFh h)
    (hel : h.data.take h.size = xs.map some) (k : Nat) (hk : k < xs.length) :
    vector_at (some h) k = .ok (xs.getD k 0) := by
  obtain ⟨w1, w2, -⟩ := hv
  have hlen : h.size = xs.length := by
    have := congrArg List.length hel
    simp only [List.length_take, List.length_map] at this
    omega
  have hget : h.data[k]? = some (some (xs.getD k 0)) := by
    have h1 : (h.data.take h.size)[k]? = h.data[k]? := List.getElem?_take_of_lt (by omega)
    rw [← h1, hel, List.getElem?_map, List.getElem?_eq_getElem hk]
    simp [List.getD_eq_getElem?_getD, List.getElem?_eq_getElem hk]
  simp only [vector_at, hget]

theorem count_loop_spec (h : vector__header Int) (xs : List Int) (hv : WFh h)
    (hel : h.data.take h.size = xs.map some) (h3 : 3 ≤ xs.length) :
    ∀ (fuel i inc : Nat), i + fuel = xs.length - 3 → inc < UINT_MOD →
      count_loop (some h) fuel i inc =
        .ok ((inc + (List.range' i fuel).countP
          (fun j => decide (xs.getD j 0 < xs.getD (j + 3) 0))) % UINT_MOD) := by
  have hlen : h.size = xs.length := by
    have := congrArg List.length hel
    simp only [List.length_take, List.length_map] at this
    have := hv.1
    have := hv.2.1
    omega
  have hsize : h.size < SIZE_MOD := by
    have := hv.1
    have := hv.2.2
    omega
  have hbound : subw (vector_size (some h)) 3 = xs.length - 3 := by
    show subw h.size 3 = xs.length - 3
    rw [subw_eq hsize (by omega), hlen]
  intro fuel
  induction fuel with
  | zero =>
    intro i inc _ hinc
    simp only [count_loop, List.range'_zero, List.countP_nil, Nat.add_zero]
    rw [Nat.mod_eq_of_lt hinc]
  | succ fuel ih =>
    intro i inc hi hinc
    have e1 : addw i 1 = i + 1 := addw_eq (by omega)
    have e2 : addw i 2 = i + 2 := addw_eq (by omega)
    have e3 : addw i 3 = i + 3 := addw_eq (by omega)
    have ra := vector_at_elements h xs hv hel i (by omega)
    have rb := vector_at_elements h xs hv hel (i + 1) (by omega)
    have rc := vector_at_elements h xs hv hel (i + 2) (by omega)
    have rd := vector_at_elements h xs hv hel (i + 3) (by omega)
    rw [count_loop, hbound, if_pos (by omega), e1, e2, e3, ra, rb, rc, rd]
    simp only
    rw [ih (i + 1) _ (by omega) (by rw [UINT_MOD_eq] at *; split <;> omega), List.range'_succ,
      List.countP_cons]
    congr 1
    rw [UINT_MOD_eq] at *
    by_cases hp : xs.getD i 0 < xs.getD (i + 3) 0
    · simp only [gt_iff_lt, hp, if_true, decide_True]
      omega
    · simp only [gt_iff_lt, hp, if_false, decide_False, Bool.false_eq_true]
      omega

theorem main_spec (alloc : Nat → Bool) (ha : ∀ k, alloc k = true) (xs : List Int)
    (h3 : 3 ≤ xs.length) (h62 : xs.length ≤ 2 ^ 62) :
    main alloc xs = .ok (window_increases xs % UINT_MOD) := by
  obtain ⟨w, hw, hwf, hsz, hel, hne⟩ := read_input_spec alloc ha xs none trivial
    (by simpa [vector_size] using h62) (by simp [vector_capacity])
  cases w with
  | none => exact absurd rfl (hne (by intro hx; subst hx; simp at h3))
  | some h =>
    have hel' : h.data.take h.size = xs.map some := by
      have : elements (some h) = [] ++ xs.map some := hel
      simpa [elements] using this
    have hlen : h.size = xs.length := by
      have : vector_size (some h) = 0 + xs.length := hsz
      simpa [vector_size] using this
    have hsize : h.size < SIZE_MOD := by
      have := hwf.1
      have := hwf.2.2
      omega
    have hbound : subw (vector_size (some h)) 3 = xs.length - 3 := by
      show subw h.size 3 = xs.length - 3
      rw [subw_eq hsize (by omega), hlen]
    simp only [main, hw, hbound]
    rw [count_loop_spec h xs hwf hel' h3 (xs.length - 3) 0 0 (by omega) (by simp [UINT_MOD])]
    simp only [Nat.zero_add, window_increases, List.range_eq_range']

theorem vector_resize_spec (alloc : Nat → Bool) (h : vector__header α) (k : Nat)
    (hv : WFh h) (hk : k < SIZE_MOD) (ha : alloc k = true) :
    ∃ w, vector_resize alloc (some h) k = .ok (some w) ∧ WFh w ∧ w.capacity = k ∧
      (k < h.size → w.size = k ∧ w.data.take w.size = (h.data.take h.size).take k) ∧
      (h.size ≤ k → w.size = h.size ∧ w.data.take w.size = h.data.take h.size) := by
  simp only [vector_resize, Nat.mod_eq_of_lt hk]
  exact vector__resize_f_spec alloc h k hv hk ha

theorem vector_reserve_spec (alloc : Nat → Bool) (v : Vec α) (n : Nat) (hv : WF v)
    (hn : n < SIZE_MOD) (ha : ∀ k, alloc k = true) :
    (n ≤ vector_capacity v → vector_reserve alloc v n = .ok v) ∧
      (vector_capacity v < n → ∃ w, vector_reserve alloc v n = .ok (some w) ∧
        w.capacity = n ∧ w.size = vector_size v ∧ elements (some w) = elements v) := by
  have hm : n % SIZE_MOD = n := Nat.mod_eq_of_lt hn
  constructor
  · intro hle
    simp only [vector_reserve, hm]
    rw [if_neg (by omega)]
  · intro hlt
    simp only [vector_reserve, hm]
    rw [if_pos hlt]
    cases v with
    | none =>
      refine ⟨⟨0, n, List.replicate n none⟩, ?_, rfl, rfl, ?_⟩
      · simp only [vector_resize, vector__resize_f, hm, ha, if_true]
      · simp [elements]
    | some h =>
      obtain ⟨w, hw, -, hcap, -, hge⟩ := vector_resize_spec alloc h n hv hn (ha n)
      have hle : h.size ≤ n := by
        have := hv.1
        have : h.capacity < n := hlt
        omega
      exact ⟨w, hw, hcap, (hge hle).1, (hge hle).2⟩

theorem vector_shrink_to_fit_spec (alloc : Nat → Bool) (h : vector__header α)
    (hv : WFh h) (ha : ∀ k, alloc k = true) :
    ∃ w, vector_shrink_to_fit alloc (some h) = .ok (some w) ∧ w.capacity = h.size ∧
      w.size = h.size ∧ elements (some w) = elements (some h) := by
  have hsz : h.size < SIZE_MOD := by
    have := hv.1
    have := hv.2.2
    omega
  obtain ⟨w, hw, -, hcap, -, hge⟩ := vector_resize_spec alloc h h.size hv hsz (ha _)
  exact ⟨w, hw, hcap, (hge (Nat.le_refl _)).1, (hge (Nat.le_refl _)).2⟩

theorem window_eq_sum (xs : List Int) : window_increases xs = sum_increases xs := by
  unfold window_increases sum_increases
  apply List.countP_congr
  intro i _
  simp only [decide_eq_true_eq]
  omega

theorem window_increases_cons (a b c d : Int) (rest : List Int) :
    window_increases (a :: b :: c :: d :: rest) =
      (if a < d then 1 else 0) + window_increases (b :: c :: d :: rest) := by
  unfold window_increases
  have h1 : (a :: b :: c :: d :: rest).length - 3 = rest.length + 1 := by simp
  have h2 : (b :: c :: d :: rest).length - 3 = rest.length := by simp
  rw [h1, h2, List.range_succ_eq_map, List.countP_cons, List.countP_map]
  have hp : ((fun i => decide ((a :: b :: c :: d :: rest).getD i 0 <
      (a :: b :: c :: d :: rest).getD (i + 3) 0)) ∘ Nat.succ) =
      (fun i => decide ((b :: c :: d :: rest).getD i 0 < (b :: c :: d :: rest).getD (i + 3) 0)) := by
    funext i
    simp [Function.comp, List.getD_cons_succ]
  rw [hp]
  simp only [List.getD_cons_zero, List.getD_cons_succ, decide_eq_true_eq]
  omega

theorem zigzag_input_succ (m : Nat) :
    zigzag_input (m + 1) = 0 :: 0 :: 0 :: 1 :: 1 :: 1 :: zigzag_input m := by
  simp [zigzag_input, List.replicate_succ]

theorem zigzag_input_head (m : Nat) : ∃ r, zigzag_input m = 0 :: 0 :: 0 :: r := by
  cases m with
  | zero => exact ⟨[], rfl⟩
  | succ k => exact ⟨_, zigzag_input_succ k⟩

theorem zigzag_input_length (m : Nat) : (zigzag_input m).length = 6 * m + 3 := by
  induction m with
  | zero => rfl
  | succ k ih =>
    rw [zigzag_input_succ]
    simp only [List.length_cons, ih]
    omega

theorem window_increases_zigzag (m : Nat) : window_increases (zigzag_input m) = 3 * m := by
  induction m with
  | zero => rfl
  | succ k ih =>
    obtain ⟨r, hr⟩ := zigzag_input_head k
    rw [zigzag_input_succ, hr]
    rw [window_increases_cons, window_increases_cons, window_increases_cons,
      window_increases_cons, window_increases_cons, window_increases_cons, ← hr, ih]
    simp
    omega

theorem main_zigzag (m : Nat) (hm : 6 * m + 3 ≤ 2 ^ 62) :
    main grant (zigzag_input m) = .ok (3 * m % UINT_MOD) := by
  rw [main_spec grant (fun _ => rfl) (zigzag_input m) (by rw [zigzag_input_length]; omega)
    (by rw [zigzag_input_length]; exact hm), window_increases_zigzag]

theorem HEADER_SIZE_eq : HEADER_SIZE = 16 := rfl

theorem bytes_request_eq {elems es : Nat} (hb : elems * es + HEADER_SIZE < SIZE_MOD) :
    Bytes.request elems es = elems * es + HEADER_SIZE := by
  unfold Bytes.request
  exact Nat.mod_eq_of_lt hb

theorem bytes_slots_request {elems es : Nat} (hes : 0 < es)
    (hb : elems * es + HEADER_SIZE < SIZE_MOD) :
    Bytes.slots (Bytes.request elems es) es = elems := by
  rw [bytes_request_eq hb]
  unfold Bytes.slots
  rw [Nat.add_sub_cancel]
  exact Nat.mul_div_cancel _ hes

theorem bytes_resize_f_eq (alloc : Nat → Bool) (data : Vec α) (elems es : Nat) (hes : 0 < es)
    (hb : elems * es + HEADER_SIZE < SIZE_MOD) :
    Bytes.vector__resize_f alloc data elems es =
      vector__resize_f (fun k => alloc (k * es + HEADER_SIZE)) data elems := by
  have hs := bytes_slots_request hes hb
  have hr := bytes_request_eq hb
  simp only [Bytes.vector__resize_f, vector__resize_f, hs]
  rw [hr]
  by_cases hal : alloc (elems * es + HEADER_SIZE) = true
  · rw [if_pos hal, if_pos hal, if_neg (by omega)]
  · rw [if_neg hal, if_neg hal]

theorem bytes_grow_spec (alloc : Nat → Bool) (v : Vec α) (n es : Nat) (hv : WF v)
    (h2 : 2 * vector_capacity v < SIZE_MOD) (hs : vector_size v + n < SIZE_MOD)
    (hes : 0 < es)
    (hb : max (2 * vector_capacity v) (vector_size v + n) * es + HEADER_SIZE < SIZE_MOD)
    (ha : ∀ k, alloc k = true) :
    ∃ w, Bytes.vector__grow_f alloc v n es = .ok (some w) ∧ WFh w ∧
      w.capacity = max (2 * vector_capacity v) (vector_size v + n) ∧
      w.size = vector_size v ∧ w.data.take w.size = elements v := by
  have hnew : (if shlw (vector_capacity v) > addw (vector_size v) n then shlw (vector_capacity v)
      else addw (vector_size v) n) = max (2 * vector_capacity v) (vector_size v + n) := by
    rw [shlw_eq h2, addw_eq hs]
    split <;> omega
  obtain ⟨w, hw, hrest⟩ := vector__grow_f_spec (fun j => alloc (j * es + HEADER_SIZE)) v n hv h2 hs
    (fun _ => ha _)
  refine ⟨w, ?_, hrest⟩
  rw [← hw]
  simp only [Bytes.vector__grow_f, vector__grow_f, hnew]
  exact bytes_resize_f_eq alloc v _ es hes hb

end Aux

/-! ## Properties of the buffer operations -/

section Claims

variable {α : Type}

/-- C1: every handle reached from `NULL` or from `vector_create (n)` by push,
pop, insert, remove, eraseRange, clear, resize, reserve and shrinkToFit calls
(with any index and capacity arguments, `pop` only on a buffer with
`size > 0`, `eraseRange` only with `count ≤ size`) has
`vector_size ≤ vector_capacity`. -/
theorem C1_size_le_capacity (alloc : Nat → Bool) (v : Vec α) (h : Reach alloc v) :
    vector_size v ≤ vector_capacity v := by
  have hw := Reach_WF h
  cases v with
  | none => exact Nat.le_refl _
  | some g => exact hw.1

/-- A concrete run for C1: three pushes, an insert and a remove from `NULL`
reach a buffer that satisfies the invariant. -/
theorem C1_size_le_capacity_witness :
    Reach grant
        (some ⟨3, 8, [some 9, some 2, some 3, some 3, none, none, none, none]⟩ : Vec Nat) ∧
      vector_size
          (some ⟨3, 8, [some 9, some 2, some 3, some 3, none, none, none, none]⟩ : Vec Nat) ≤
        vector_capacity
          (some ⟨3, 8, [some 9, some 2, some 3, some 3, none, none, none, none]⟩ : Vec Nat) :=
  have r1 : Reach grant (some ⟨1, 1, [some 1]⟩ : Vec Nat) :=
    Reach.step none _ (Op.push 1) Reach.null trivial (by decide)
  have r2 : Reach grant (some ⟨2, 2, [some 1, some 2]⟩ : Vec Nat) :=
    Reach.step _ _ (Op.push 2) r1 trivial (by decide)
  have r3 : Reach grant (some ⟨3, 4, [some 1, some 2, some 3, none]⟩ : Vec Nat) :=
    Reach.step _ _ (Op.push 3) r2 trivial (by decide)
  have r4 : Reach grant
      (some ⟨4, 8, [some 1, some 9, some 2, some 3, none, none, none, none]⟩ : Vec Nat) :=
    Reach.step _ _ (Op.insert 1 9) r3 trivial (by decide)
  have r5 : Reach grant
      (some ⟨3, 8, [some 9, some 2, some 3, some 3, none, none, none, none]⟩ : Vec Nat) :=
    Reach.step _ _ (Op.remove 0) r4 trivial (by decide)
  ⟨r5, C1_size_le_capacity grant _ r5⟩

/-- C2: for every buffer `v` (the `NULL` handle included) and every value
`e`, `vector_push (v, e)` yields a buffer of size `vector_size v + 1` whose
live elements are those of `v`, in the same order, followed by `e` at index
`vector_size v`.  (The buffer is well formed, its size plus one is a `size_t`,
and the allocator grants the growth.) -/
theorem C2_push (alloc : Nat → Bool) (v : Vec α) (e : α) (hv : WF v)
    (hs : vector_size v + 1 < SIZE_MOD) (ha : ∀ k, alloc k = true) :
    ∃ w, vector_push alloc v e = .ok w ∧ vector_size w = vector_size v + 1 ∧
      (elements w)[vector_size v]? = some (some e) ∧
      (elements w).take (vector_size v) = elements v ∧
      elements w = elements v ++ [some e] := by
  obtain ⟨g, ⟨w1, w2, w3⟩, h1, h2, h3, hp⟩ := vector_push_eq alloc v e hv hs ha
  have hel : elements (some ⟨g.size + 1, g.capacity, g.data.set g.size (some e)⟩) =
      elements v ++ [some e] := by
    show ((g.data.set g.size (some e)).take (g.size + 1)) = elements v ++ [some e]
    rw [take_succ_set _ _ _ (by omega), h3]
  have hlen := elements_length hv
  refine ⟨_, hp, ?_, ?_, ?_, hel⟩
  · simp only [vector_size, h1]
  · rw [hel, List.getElem?_append_right (by omega)]
    simp [hlen]
  · rw [hel, List.take_append_of_le_length (by omega), List.take_of_length_le (by omega)]

/-- Witness for C2 on a full three-element buffer. -/
theorem C2_push_witness :
    ∃ w, vector_push grant (some ⟨3, 3, [some 1, some 2, some 3]⟩ : Vec Nat) 7 = .ok w ∧
      vector_size w = vector_size (some ⟨3, 3, [some 1, some 2, some 3]⟩ : Vec Nat) + 1 ∧
      (elements w)[vector_size (some ⟨3, 3, [some 1, some 2, some 3]⟩ : Vec Nat)]?
        = some (some 7) ∧
      (elements w).take (vector_size (some ⟨3, 3, [some 1, some 2, some 3]⟩ : Vec Nat)) =
        elements (some ⟨3, 3, [some 1, some 2, some 3]⟩ : Vec Nat) ∧
      elements w = elements (some ⟨3, 3, [some 1, some 2, some 3]⟩ : Vec Nat) ++ [some 7] :=
  C2_push grant (some ⟨3, 3, [some 1, some 2, some 3]⟩) 7
    (by simp [WF, WFh, SIZE_MOD]) (by simp [vector_size, SIZE_MOD]) (fun _ => rfl)

/-- C3: for every buffer `v` (the `NULL` handle included) and value `e`,
`vector_push (v, e)` immediately followed by `vector_pop` returns `e` and
leaves a buffer with the size and the live elements of `v`. -/
theorem C3_push_pop (alloc : Nat → Bool) (v : Vec α) (e : α) (hv : WF v)
    (hs : vector_size v + 1 < SIZE_MOD) (ha : ∀ k, alloc k = true) :
    ∃ w, (vector_push alloc v e).bind vector_pop = .ok (some e, w) ∧
      vector_size w = vector_size v ∧ elements w = elements v := by
  obtain ⟨g, ⟨w1, w2, w3⟩, h1, h2, h3, hp⟩ := vector_push_eq alloc v e hv hs ha
  have hsub : subw (g.size + 1) 1 = g.size := by
    rw [subw_eq (by omega) (by omega)]; omega
  have hget : (g.data.set g.size (some e))[g.size]? = some (some e) := by
    rw [List.getElem?_set]
    simp only [if_true]
    rw [if_pos (by omega)]
  refine ⟨some ⟨g.size, g.capacity, g.data.set g.size (some e)⟩, ?_, h1, ?_⟩
  · rw [hp]
    simp only [Outcome.bind, vector_pop, hsub, hget]
  · show (g.data.set g.size (some e)).take g.size = elements v
    rw [take_set_self, h3]

/-- Witness for C3 on a full three-element buffer. -/
theorem C3_push_pop_witness :
    ∃ w, (vector_push grant (some ⟨3, 3, [some 1, some 2, some 3]⟩ : Vec Nat) 7).bind vector_pop
        = .ok (some 7, w) ∧
      vector_size w = vector_size (some ⟨3, 3, [some 1, some 2, some 3]⟩ : Vec Nat) ∧
      elements w = elements (some ⟨3, 3, [some 1, some 2, some 3]⟩ : Vec Nat) :=
  C3_push_pop grant (some ⟨3, 3, [some 1, some 2, some 3]⟩) 7
    (by simp [WF, WFh, SIZE_MOD]) (by simp [vector_size, SIZE_MOD]) (fun _ => rfl)

/-- C4: for every buffer `v` with live elements `e_0 .. e_{s-1}`, every
index `i < s` and every value `e`, `vector_insert (v, i, e)` yields a buffer
of size `s + 1` whose live elements are `e_0 .. e_{i-1}, e, e_i .. e_{s-1}`:
the elements `[i, s)` moved right by one slot, none lost or duplicated. -/
theorem C4_insert (alloc : Nat → Bool) (v : Vec α) (i : Nat) (e : α) (hv : WF v)
    (hi : i < vector_size v) (hs : vector_size v + 1 < SIZE_MOD) (ha : ∀ k, alloc k = true) :
    ∃ w, vector_insert alloc v i e = .ok (vector_size v + 1, w) ∧
      vector_size w = vector_size v + 1 ∧
      elements w = (elements v).take i ++ some e :: (elements v).drop i := by
  cases v with
  | none => exact absurd hi (Nat.not_lt_zero _)
  | some h0 =>
    obtain ⟨w, hw, -, hsz, hel⟩ := vector_insert_spec alloc h0 i e hv hi hs ha
    exact ⟨some w, hw, hsz, hel⟩

/-- Witness for C4: inserting in the middle of a three-element buffer. -/
theorem C4_insert_witness :
    ∃ w, vector_insert grant (some ⟨3, 4, [some 1, some 2, some 3, none]⟩ : Vec Nat) 1 9 =
        .ok (vector_size (some ⟨3, 4, [some 1, some 2, some 3, none]⟩ : Vec Nat) + 1, w) ∧
      vector_size w = vector_size (some ⟨3, 4, [some 1, some 2, some 3, none]⟩ : Vec Nat) + 1 ∧
      elements w =
        (elements (some ⟨3, 4, [some 1, some 2, some 3, none]⟩ : Vec Nat)).take 1 ++
          some 9 :: (elements (some ⟨3, 4, [some 1, some 2, some 3, none]⟩ : Vec Nat)).drop 1 :=
  C4_insert grant (some ⟨3, 4, [some 1, some 2, some 3, none]⟩) 1 9
    (by simp [WF, WFh, SIZE_MOD]) (by simp [vector_size]) (by simp [vector_size, SIZE_MOD])
    (fun _ => rfl)

/-- C5: for every buffer `v` with live elements `e_0 .. e_{s-1}` and every
index `i < s`, `vector_remove (v, i)` yields a buffer of size `s - 1` whose
live elements are `e_0 .. e_{i-1}, e_{i+1} .. e_{s-1}`, with the capacity
unchanged. -/
theorem C5_remove (v : Vec α) (i : Nat) (hv : WF v) (hi : i < vector_size v) :
    ∃ w, vector_remove v i = .ok (vector_size v - 1, w) ∧
      vector_size w = vector_size v - 1 ∧
      elements w = (elements v).take i ++ (elements v).drop (i + 1) ∧
      vector_capacity w = vector_capacity v := by
  cases v with
  | none => exact absurd hi (Nat.not_lt_zero _)
  | some h =>
    obtain ⟨w, hw, -, hsz, hcap, hel⟩ := vector_remove_elements h i hv hi
    exact ⟨some w, hw, hsz, hel, hcap⟩

/-- Witness for C5: removing the first element of a three-element buffer
moves the two elements behind it one slot down. -/
theorem C5_remove_witness :
    (∃ w, vector_remove (some ⟨3, 4, [some 1, some 2, some 3, none]⟩ : Vec Nat) 0 =
          .ok (vector_size (some ⟨3, 4, [some 1, some 2, some 3, none]⟩ : Vec Nat) - 1, w) ∧
        vector_size w = vector_size (some ⟨3, 4, [some 1, some 2, some 3, none]⟩ : Vec Nat) - 1 ∧
        elements w =
          (elements (some ⟨3, 4, [some 1, some 2, some 3, none]⟩ : Vec Nat)).take 0 ++
            (elements (some ⟨3, 4, [some 1, some 2, some 3, none]⟩ : Vec Nat)).drop (0 + 1) ∧
        vector_capacity w =
          vector_capacity (some ⟨3, 4, [some 1, some 2, some 3, none]⟩ : Vec Nat)) ∧
      vector_remove (some ⟨3, 4, [some 1, some 2, some 3, none]⟩ : Vec Nat) 0 =
        .ok (2, some ⟨2, 4, [some 2, some 3, some 3, none]⟩) ∧
      elements (some ⟨2, 4, [some 2, some 3, some 3, none]⟩ : Vec Nat) = [some 2, some 3] :=
  ⟨C5_remove (some ⟨3, 4, [some 1, some 2, some 3, none]⟩) 0
    (by simp [WF, WFh, SIZE_MOD]) (by simp [vector_size]), by decide, by decide⟩

/-- C6: for every buffer `v`, every value `e` and every index
`i ≤ vector_size v`, `vector_insert (v, i, e)` followed by
`vector_remove (v, i)` leaves a buffer with the size of `v` and, element by
element, the live elements of `v`. -/
theorem C6_insert_remove (alloc : Nat → Bool) (v : Vec α) (i : Nat) (e : α) (hv : WF v)
    (hi : i ≤ vector_size v) (hs : vector_size v + 1 < SIZE_MOD) (ha : ∀ k, alloc k = true) :
    ∃ r w, (vector_insert alloc v i e).bind (fun p => vector_remove p.2 i) = .ok (r, w) ∧
      vector_size w = vector_size v ∧ elements w = elements v := by
  by_cases hlt : i < vector_size v
  · cases v with
    | none => exact absurd hlt (Nat.not_lt_zero _)
    | some h0 =>
      have hlt0 : i < h0.size := hlt
      obtain ⟨w, hw, hwf, hsz, hel⟩ := vector_insert_spec alloc h0 i e hv hlt0 hs ha
      obtain ⟨u, hu, -, husz, -, huel⟩ := vector_remove_elements w i hwf (by omega)
      have hlen : (h0.data.take h0.size).length = h0.size := elements_length (v := some h0) hv
      refine ⟨w.size - 1, some u, ?_, ?_, ?_⟩
      · rw [hw]
        simp only [Outcome.bind]
        exact hu
      · show u.size = h0.size
        omega
      · show u.data.take u.size = h0.data.take h0.size
        rw [huel, hel]
        have hA : ((h0.data.take h0.size).take i).length = i := by
          rw [List.length_take]; omega
        rw [List.take_append_of_le_length (by omega), List.take_of_length_le (by omega)]
        have hdrop : List.drop (i + 1)
            ((h0.data.take h0.size).take i ++ some e :: (h0.data.take h0.size).drop i) =
            (h0.data.take h0.size).drop i := by
          rw [List.drop_append_eq_append_drop, List.drop_of_length_le (by omega), hA,
            show i + 1 - i = 1 by omega]
          rfl
        rw [hdrop, List.take_append_drop]
  · have hiM : i < SIZE_MOD := by omega
    have hr : v = none ∨ vector_size v ≤ i := Or.inr (by omega)
    refine ⟨0, v, ?_, rfl, rfl⟩
    rw [vector_insert_reject alloc v i e hiM hr]
    simp only [Outcome.bind]
    exact vector_remove_reject v i hiM hr

/-- Witness for C6 at an index inside a three-element buffer. -/
theorem C6_insert_remove_witness :
    ∃ r w, (vector_insert grant (some ⟨3, 4, [some 1, some 2, some 3, none]⟩ : Vec Nat) 1 9).bind
        (fun p => vector_remove p.2 1) = .ok (r, w) ∧
      vector_size w = vector_size (some ⟨3, 4, [some 1, some 2, some 3, none]⟩ : Vec Nat) ∧
      elements w = elements (some ⟨3, 4, [some 1, some 2, some 3, none]⟩ : Vec Nat) :=
  C6_insert_remove grant (some ⟨3, 4, [some 1, some 2, some 3, none]⟩) 1 9
    (by simp [WF, WFh, SIZE_MOD]) (by simp [vector_size]) (by simp [vector_size, SIZE_MOD])
    (fun _ => rfl)

/-- C7: for every buffer `v` and value `e`, `vector_insert (v, size, e)`,
`vector_insert (v, size + 1, e)` and `vector_remove (v, size)` leave the
buffer as it is (size, capacity and every slot) and yield `0`; so do
`vector_insert`, `vector_remove` and `vector_erase` on the `NULL` handle with
a nonzero index. -/
theorem C7_bounds_rejection (alloc : Nat → Bool) (v : Vec α) (e : α)
    (hs : vector_size v + 1 < SIZE_MOD) :
    vector_insert alloc v (vector_size v) e = .ok (0, v) ∧
      vector_insert alloc v (vector_size v + 1) e = .ok (0, v) ∧
      vector_remove v (vector_size v) = .ok (0, v) ∧
      ∀ i n : Nat, i ≠ 0 →
        vector_insert alloc (none : Vec α) i e = .ok (0, none) ∧
        vector_remove (none : Vec α) i = .ok (0, none) ∧
        vector_erase (none : Vec α) i n = .ok (0, none) :=
  ⟨vector_insert_reject alloc v _ e (by omega) (Or.inr (Nat.le_refl _)),
    vector_insert_reject alloc v _ e hs (Or.inr (Nat.le_succ _)),
    vector_remove_reject v _ (by omega) (Or.inr (Nat.le_refl _)),
    fun _ _ _ => ⟨rfl, rfl, rfl⟩⟩

/-- Witness for C7 on a three-element buffer. -/
theorem C7_bounds_rejection_witness :
    vector_insert grant (some ⟨3, 4, [some 1, some 2, some 3, none]⟩ : Vec Nat)
        (vector_size (some ⟨3, 4, [some 1, some 2, some 3, none]⟩ : Vec Nat)) 9 =
        .ok (0, some ⟨3, 4, [some 1, some 2, some 3, none]⟩) ∧
      vector_insert grant (some ⟨3, 4, [some 1, some 2, some 3, none]⟩ : Vec Nat)
        (vector_size (some ⟨3, 4, [some 1, some 2, some 3, none]⟩ : Vec Nat) + 1) 9 =
        .ok (0, some ⟨3, 4, [some 1, some 2, some 3, none]⟩) ∧
      vector_remove (some ⟨3, 4, [some 1, some 2, some 3, none]⟩ : Vec Nat)
        (vector_size (some ⟨3, 4, [some 1, some 2, some 3, none]⟩ : Vec Nat)) =
        .ok (0, some ⟨3, 4, [some 1, some 2, some 3, none]⟩) ∧
      ∀ i n : Nat, i ≠ 0 →
        vector_insert grant (none : Vec Nat) i 9 = .ok (0, none) ∧
        vector_remove (none : Vec Nat) i = .ok (0, none) ∧
        vector_erase (none : Vec Nat) i n = .ok (0, none) :=
  C7_bounds_rejection grant (some ⟨3, 4, [some 1, some 2, some 3, none]⟩) 9
    (by simp [vector_size, SIZE_MOD])

/-- C8 (the code at the failing input): on the three-element buffer
`1, 2, 3`, erasing the tail is rejected by the guard
`(size_t)(i) >= vector__size (v) - (n)` although `index + count = size`:
`vector_erase (v, 1, 2)` and `vector_erase (v, 2, 1)` yield `0` and leave the
buffer as it is, while the sibling `vector_remove (v, 2)` does remove the
last element. -/
theorem C8_erase_tail_rejected :
    vector_erase (some ⟨3, 4, [some 1, some 2, some 3, none]⟩ : Vec Nat) 1 2 =
        .ok (0, some ⟨3, 4, [some 1, some 2, some 3, none]⟩) ∧
      vector_erase (some ⟨3, 4, [some 1, some 2, some 3, none]⟩ : Vec Nat) 2 1 =
        .ok (0, some ⟨3, 4, [some 1, some 2, some 3, none]⟩) ∧
      vector_remove (some ⟨3, 4, [some 1, some 2, some 3, none]⟩ : Vec Nat) 2 =
        .ok (2, some ⟨2, 4, [some 1, some 2, some 3, none]⟩) := by
  decide

/-- C9 (the code at the failing input): with `n > size` the guard
`vector__size (v) - (n)` wraps, so the request is not rejected.  On the buffer
`1, 2, 3`, `vector_erase (v, 0, 4)` passes the guard and runs `memmove` with
a count of `2 ^ 64 - 1` slots; on the buffer `1, 2, 3, 4, 5` of capacity 8,
`vector_erase (v, 2, SIZE_MAX)` passes the guard, moves four slots one place
up and leaves size 6. -/
theorem C9_erase_underflow_not_rejected :
    subw 3 4 = 18446744073709551615 ∧
      vector_erase (some ⟨3, 4, [some 1, some 2, some 3, none]⟩ : Vec Nat) 0 4 = .ub ∧
      vector_erase
          (some ⟨5, 8, [some 1, some 2, some 3, some 4, some 5, none, none, none]⟩ : Vec Nat)
          2 18446744073709551615 =
        .ok (6, some ⟨6, 8, [some 1, some 2, some 2, some 3, some 4, some 5, none, none]⟩) := by
  decide

/-- C10, counterexample: removing the only element of a one-element buffer is
carried out (index `0` is in range, the buffer ends with size `0`) and yet
the expression yields `0`, the value that signals a rejection. -/
theorem C10_counterexample :
    0 < vector_size (some ⟨1, 1, [some 7]⟩ : Vec Nat) ∧
      vector_remove (some ⟨1, 1, [some 7]⟩ : Vec Nat) 0 = .ok (0, some ⟨0, 1, [some 7]⟩) ∧
      vector_remove (none : Vec Nat) 0 = .ok (0, none) := by
  decide

/-- C10, amended: `vector_insert`, `vector_remove` and `vector_erase` yield
`0` when the request is rejected and the new size when it is carried out.
Rejected, with the buffer left as it is, are every request on the `NULL`
handle, `vector_insert` and `vector_remove` with `index ≥ size`, and
`vector_erase` with `count ≤ size` and `index ≥ size` or
`index + count > size`.  Carried out are `vector_insert` and `vector_remove`
with `index < size` and `vector_erase` with `index + count < size`.  The
new size is nonzero for `vector_insert` and `vector_erase`; for
`vector_remove` it is nonzero exactly when the buffer held more than one
element. -/
theorem C10_sentinel (alloc : Nat → Bool) (v : Vec α) (i n : Nat) (e : α) (hv : WF v)
    (hs : vector_size v + 1 < SIZE_MOD) (ha : ∀ k, alloc k = true) (hi : i < SIZE_MOD) :
    (v = none →
        vector_insert alloc v i e = .ok (0, v) ∧ vector_remove v i = .ok (0, v) ∧
        vector_erase v i n = .ok (0, v)) ∧
      (vector_size v ≤ i →
        vector_insert alloc v i e = .ok (0, v) ∧ vector_remove v i = .ok (0, v)) ∧
      (n ≤ vector_size v → (vector_size v ≤ i ∨ vector_size v < i + n) →
        vector_erase v i n = .ok (0, v)) ∧
      (i < vector_size v →
        (∃ r w, vector_insert alloc v i e = .ok (r, w) ∧ r = vector_size w ∧
          r = vector_size v + 1 ∧ r ≠ 0) ∧
        (∃ r w, vector_remove v i = .ok (r, w) ∧ r = vector_size w ∧
          r = vector_size v - 1 ∧ (r ≠ 0 ↔ 1 < vector_size v))) ∧
      (i + n < vector_size v →
        ∃ r w, vector_erase v i n = .ok (r, w) ∧ r = vector_size w ∧
          r = vector_size v - n ∧ r ≠ 0) := by
  refine ⟨?_, ?_, ?_, ?_, ?_⟩
  · intro hnull
    subst hnull
    exact ⟨rfl, rfl, rfl⟩
  · intro hr
    exact ⟨vector_insert_reject alloc v i e hi (Or.inr hr),
      vector_remove_reject v i hi (Or.inr hr)⟩
  · intro hn hr
    refine vector_erase_reject v i n hi (by omega) hn (Or.inr ?_)
    rcases hr with hr | hr <;> omega
  · intro hlt
    cases v with
    | none => exact absurd hlt (Nat.not_lt_zero _)
    | some h0 =>
      obtain ⟨w, hw, -, hsz, -⟩ := vector_insert_spec alloc h0 i e hv hlt hs ha
      obtain ⟨u, hu, -, husz, -, -⟩ := vector_remove_elements h0 i hv hlt
      have hlt0 : i < h0.size := hlt
      refine ⟨⟨_, _, hw, hsz.symm, rfl, Nat.succ_ne_zero _⟩, ⟨_, _, hu, husz.symm, rfl, ?_⟩⟩
      show h0.size - 1 ≠ 0 ↔ 1 < h0.size
      omega
  · intro hlt
    cases v with
    | none => exact absurd hlt (Nat.not_lt_zero _)
    | some h0 =>
      obtain ⟨u, hu, -, husz, -, -⟩ := vector_erase_elements h0 i n hv hlt
      have hlt0 : i + n < h0.size := hlt
      refine ⟨_, _, hu, husz.symm, rfl, ?_⟩
      show h0.size - n ≠ 0
      omega

/-- Witness for C10 (amended): on the buffer `1, 2, 3`, index `1` is in
range, so `vector_insert` yields `4`, `vector_remove` yields `2` and
`vector_erase (v, 1, 1)` yields `2`; index `3` is rejected with `0`. -/
theorem C10_sentinel_witness :
    (((some ⟨3, 4, [some 1, some 2, some 3, none]⟩ : Vec Nat) = none →
          vector_insert grant (some ⟨3, 4, [some 1, some 2, some 3, none]⟩ : Vec Nat) 1 9 =
            .ok (0, some ⟨3, 4, [some 1, some 2, some 3, none]⟩) ∧
          vector_remove (some ⟨3, 4, [some 1, some 2, some 3, none]⟩ : Vec Nat) 1 =
            .ok (0, some ⟨3, 4, [some 1, some 2, some 3, none]⟩) ∧
          vector_erase (some ⟨3, 4, [some 1, some 2, some 3, none]⟩ : Vec Nat) 1 1 =
            .ok (0, some ⟨3, 4, [some 1, some 2, some 3, none]⟩)) ∧
        (vector_size (some ⟨3, 4, [some 1, some 2, some 3, none]⟩ : Vec Nat) ≤ 1 →
          vector_insert grant (some ⟨3, 4, [some 1, some 2, some 3, none]⟩ : Vec Nat) 1 9 =
            .ok (0, some ⟨3, 4, [some 1, some 2, some 3, none]⟩) ∧
          vector_remove (some ⟨3, 4, [some 1, some 2, some 3, none]⟩ : Vec Nat) 1 =
            .ok (0, some ⟨3, 4, [some 1, some 2, some 3, none]⟩)) ∧
        (1 ≤ vector_size (some ⟨3, 4, [some 1, some 2, some 3, none]⟩ : Vec Nat) →
          (vector_size (some ⟨3, 4, [some 1, some 2, some 3, none]⟩ : Vec Nat) ≤ 1 ∨
            vector_size (some ⟨3, 4, [some 1, some 2, some 3, none]⟩ : Vec Nat) < 1 + 1) →
          vector_erase (some ⟨3, 4, [some 1, some 2, some 3, none]⟩ : Vec Nat) 1 1 =
            .ok (0, some ⟨3, 4, [some 1, some 2, some 3, none]⟩)) ∧
        (1 < vector_size (some ⟨3, 4, [some 1, some 2, some 3, none]⟩ : Vec Nat) →
          (∃ r w, vector_insert grant (some ⟨3, 4, [some 1, some 2, some 3, none]⟩ : Vec Nat) 1 9 =
              .ok (r, w) ∧ r = vector_size w ∧
            r = vector_size (some ⟨3, 4, [some 1, some 2, some 3, none]⟩ : Vec Nat) + 1 ∧
            r ≠ 0) ∧
          (∃ r w, vector_remove (some ⟨3, 4, [some 1, some 2, some 3, none]⟩ : Vec Nat) 1 =
              .ok (r, w) ∧ r = vector_size w ∧
            r = vector_size (some ⟨3, 4, [some 1, some 2, some 3, none]⟩ : Vec Nat) - 1 ∧
            (r ≠ 0 ↔
              1 < vector_size (some ⟨3, 4, [some 1, some 2, some 3, none]⟩ : Vec Nat)))) ∧
        (1 + 1 < vector_size (some ⟨3, 4, [some 1, some 2, some 3, none]⟩ : Vec Nat) →
          ∃ r w, vector_erase (some ⟨3, 4, [some 1, some 2, some 3, none]⟩ : Vec Nat) 1 1 =
              .ok (r, w) ∧ r = vector_size w ∧
            r = vector_size (some ⟨3, 4, [some 1, some 2, some 3, none]⟩ : Vec Nat) - 1 ∧
            r ≠ 0)) ∧
      vector_insert grant (some ⟨3, 4, [some 1, some 2, some 3, none]⟩ : Vec Nat) 1 9 =
        .ok (4, some ⟨4, 8, [some 1, some 9, some 2, some 3, none, none, none, none]⟩) ∧
      vector_remove (some ⟨3, 4, [some 1, some 2, some 3, none]⟩ : Vec Nat) 1 =
        .ok (2, some ⟨2, 4, [some 1, some 3, some 3, none]⟩) ∧
      vector_erase (some ⟨3, 4, [some 1, some 2, some 3, none]⟩ : Vec Nat) 1 1 =
        .ok (2, some ⟨2, 4, [some 1, some 3, some 3, none]⟩) ∧
      vector_remove (some ⟨3, 4, [some 1, some 2, some 3, none]⟩ : Vec Nat) 3 =
        .ok (0, some ⟨3, 4, [some 1, some 2, some 3, none]⟩) ∧
      vector_erase (none : Vec Nat) 0 5 = .ok (0, none) :=
  ⟨C10_sentinel grant (some ⟨3, 4, [some 1, some 2, some 3, none]⟩) 1 1 9
      (by simp [WF, WFh, SIZE_MOD]) (by simp [vector_size, SIZE_MOD]) (fun _ => rfl)
      (by simp [SIZE_MOD]),
    by decide, by decide, by decide, by decide, by decide⟩

/-- C12: for every buffer `v` (the `NULL` handle included, with size and
capacity `0`) and every `n`, absent machine-word overflow (of
`2 * capacity`, of `size + n` and of the byte count of the request)
`vector__grow_f` sets the capacity to `max (2 * capacity) (size + n)` and
leaves the size and every live element unchanged; the new capacity is not
below the size. -/
theorem C12_grow (alloc : Nat → Bool) (v : Vec α) (n elem_size : Nat) (hv : WF v)
    (h2 : 2 * vector_capacity v < SIZE_MOD) (hs : vector_size v + n < SIZE_MOD)
    (hes : 0 < elem_size)
    (hb : max (2 * vector_capacity v) (vector_size v + n) * elem_size + HEADER_SIZE < SIZE_MOD)
    (ha : ∀ k, alloc k = true) :
    ∃ w, Bytes.vector__grow_f alloc v n elem_size = .ok w ∧
      vector_capacity w = max (2 * vector_capacity v) (vector_size v + n) ∧
      vector_size w = vector_size v ∧ elements w = elements v ∧
      vector_size v ≤ vector_capacity w := by
  obtain ⟨w, hw, -, hcap, hsz, hel⟩ := bytes_grow_spec alloc v n elem_size hv h2 hs hes hb ha
  refine ⟨some w, hw, hcap, hsz, hel, ?_⟩
  show vector_size v ≤ w.capacity
  omega

/-- Witness for C12: growing a full buffer `1, 2, 3` of 8-byte elements by
one doubles the capacity to six and keeps the elements. -/
theorem C12_grow_witness :
    (∃ w, Bytes.vector__grow_f grant (some ⟨3, 3, [some 1, some 2, some 3]⟩ : Vec Int) 1 8 =
          .ok w ∧
        vector_capacity w =
          max (2 * vector_capacity (some ⟨3, 3, [some 1, some 2, some 3]⟩ : Vec Int))
            (vector_size (some ⟨3, 3, [some 1, some 2, some 3]⟩ : Vec Int) + 1) ∧
        vector_size w = vector_size (some ⟨3, 3, [some 1, some 2, some 3]⟩ : Vec Int) ∧
        elements w = elements (some ⟨3, 3, [some 1, some 2, some 3]⟩ : Vec Int) ∧
        vector_size (some ⟨3, 3, [some 1, some 2, some 3]⟩ : Vec Int) ≤ vector_capacity w) ∧
      Bytes.vector__grow_f grant (some ⟨3, 3, [some 1, some 2, some 3]⟩ : Vec Int) 1 8 =
        .ok (some ⟨3, 6, [some 1, some 2, some 3, none, none, none]⟩) :=
  ⟨C12_grow grant (some ⟨3, 3, [some 1, some 2, some 3]⟩) 1 8
      (by simp [WF, WFh, SIZE_MOD]) (by simp [vector_capacity, SIZE_MOD])
      (by simp [vector_size, SIZE_MOD]) (by decide)
      (by simp [vector_capacity, vector_size, HEADER_SIZE, SIZE_MOD]) (fun _ => rfl),
    by decide⟩

/-- C13: pushing `N ≥ 1` elements one at a time, starting from the `NULL`
handle, succeeds and calls `vector__grow_f` at most `⌊log₂ N⌋ + 2` times. -/
theorem C13_growth_amortization (alloc : Nat → Bool) (lines : List Int)
    (h1 : 1 ≤ lines.length) (h62 : lines.length ≤ 2 ^ 62) (ha : ∀ k, alloc k = true) :
    (∃ w, read_input alloc none lines = .ok w ∧ vector_size w = lines.length) ∧
      grow_calls alloc none lines ≤ Nat.log 2 lines.length + 2 := by
  refine ⟨?_, grow_calls_le_log alloc ha lines h1 h62⟩
  obtain ⟨w, hw, -, hsz, -, -⟩ := read_input_spec alloc ha lines none trivial
    (by simpa [vector_size] using h62) (by simp [vector_capacity])
  refine ⟨w, hw, ?_⟩
  rw [hsz]
  simp [vector_size]

/-- Witness for C13: nine pushes make five calls, and `⌊log₂ 9⌋ + 2 = 5`. -/
theorem C13_growth_amortization_witness :
    ((∃ w, read_input grant none [1, 2, 3, 4, 5, 6, 7, 8, 9] = .ok w ∧
        vector_size w = [1, 2, 3, 4, 5, 6, 7, 8, (9 : Int)].length) ∧
      grow_calls grant none [1, 2, 3, 4, 5, 6, 7, 8, 9] ≤
        Nat.log 2 [1, 2, 3, 4, 5, 6, 7, 8, (9 : Int)].length + 2) ∧
      grow_calls grant none [1, 2, 3, 4, 5, 6, 7, 8, 9] = 5 :=
  ⟨C13_growth_amortization grant [1, 2, 3, 4, 5, 6, 7, 8, 9] (by decide) (by decide)
    (fun _ => rfl), by decide⟩

/-- C15: for every buffer `h` (not the `NULL` handle),
`vector_shrink_to_fit (h)` yields a buffer with capacity and size both equal
to the size of `h` and with the same live elements; on the `NULL` handle it
yields `NULL`. -/
theorem C15_shrink_to_fit (alloc : Nat → Bool) (h : vector__header α) (hv : WF (some h))
    (ha : ∀ k, alloc k = true) :
    (∃ w, vector_shrink_to_fit alloc (some h) = .ok w ∧ w ≠ none ∧
        vector_capacity w = vector_size (some h) ∧ vector_size w = vector_size (some h) ∧
        elements w = elements (some h)) ∧
      vector_shrink_to_fit alloc (none : Vec α) = .ok none := by
  obtain ⟨w, hw, hcap, hsz, hel⟩ := vector_shrink_to_fit_spec alloc h hv ha
  exact ⟨⟨some w, hw, by simp, hcap, hsz, hel⟩, rfl⟩

/-- Witness for C15: shrinking a three-element buffer of capacity eight. -/
theorem C15_shrink_to_fit_witness :
    (∃ w, vector_shrink_to_fit grant
          (some ⟨3, 8, [some 1, some 2, some 3, none, none, none, none, none]⟩ : Vec Nat) =
          .ok w ∧ w ≠ none ∧
        vector_capacity w = vector_size
          (some ⟨3, 8, [some 1, some 2, some 3, none, none, none, none, none]⟩ : Vec Nat) ∧
        vector_size w = vector_size
          (some ⟨3, 8, [some 1, some 2, some 3, none, none, none, none, none]⟩ : Vec Nat) ∧
        elements w = elements
          (some ⟨3, 8, [some 1, some 2, some 3, none, none, none, none, none]⟩ : Vec Nat)) ∧
      vector_shrink_to_fit grant (none : Vec Nat) = .ok none :=
  C15_shrink_to_fit grant ⟨3, 8, [some 1, some 2, some 3, none, none, none, none, none]⟩
    (by simp [WF, WFh, SIZE_MOD]) (fun _ => rfl)

/-- C16, counterexample: on the input of 8589934599 lines made of 1431655766
blocks `0, 0, 0, 1, 1, 1` and a final `0, 0, 0`, 4294967298 windows have a
last element above the first, and `main` prints `2`: the counter `inc` is an
`unsigned` and wraps at `2 ^ 32`. -/
theorem C16_counterexample :
    4 ≤ (zigzag_input 1431655766).length ∧
      window_increases (zigzag_input 1431655766) = 4294967298 ∧
      main grant (zigzag_input 1431655766) = .ok 2 := by
  refine ⟨?_, window_increases_zigzag _, ?_⟩
  · rw [zigzag_input_length]
    decide
  · rw [main_zigzag 1431655766 (by decide)]
    rfl

/-- C16, amended: for every input of at least four integers, `main` prints
the number of indices `i` with `i + 3 < length` and `xs[i+3] > xs[i]`, reduced
modulo `2 ^ 32` (the counter is an `unsigned`); it prints exactly that number
whenever it is below `2 ^ 32`. -/
theorem C16_window_count (alloc : Nat → Bool) (xs : List Int) (h4 : 4 ≤ xs.length)
    (h62 : xs.length ≤ 2 ^ 62) (ha : ∀ k, alloc k = true) :
    main alloc xs = .ok (window_increases xs % UINT_MOD) ∧
      (window_increases xs < UINT_MOD → main alloc xs = .ok (window_increases xs)) := by
  have hm := main_spec alloc ha xs (by omega) h62
  refine ⟨hm, fun hfit => ?_⟩
  rw [hm, Nat.mod_eq_of_lt hfit]

/-- Witness for C16: `1, 2, 3, 4, 5` gives `2` and `5, 4, 3, 2, 1` gives `0`. -/
theorem C16_window_count_witness :
    ((main grant [1, 2, 3, 4, 5] = .ok (window_increases [1, 2, 3, 4, 5] % UINT_MOD) ∧
          (window_increases [1, 2, 3, 4, 5] < UINT_MOD →
            main grant [1, 2, 3, 4, 5] = .ok (window_increases [1, 2, 3, 4, 5]))) ∧
        window_increases [1, 2, 3, 4, 5] = 2 ∧ main grant [1, 2, 3, 4, 5] = .ok 2) ∧
      ((main grant [5, 4, 3, 2, 1] = .ok (window_increases [5, 4, 3, 2, 1] % UINT_MOD) ∧
          (window_increases [5, 4, 3, 2, 1] < UINT_MOD →
            main grant [5, 4, 3, 2, 1] = .ok (window_increases [5, 4, 3, 2, 1]))) ∧
        window_increases [5, 4, 3, 2, 1] = 0 ∧ main grant [5, 4, 3, 2, 1] = .ok 0) :=
  ⟨⟨C16_window_count grant [1, 2, 3, 4, 5] (by decide) (by decide) (fun _ => rfl),
      by decide, by decide⟩,
    ⟨C16_window_count grant [5, 4, 3, 2, 1] (by decide) (by decide) (fun _ => rfl),
      by decide, by decide⟩⟩

/-- C17 (the code at the failing inputs): with fewer than three values the
bound `vector_size (input) - 3` wraps to a huge `size_t`, the loop is entered
and reads `input[0]` through `NULL` (no value) or `input[1]`, `input[3]`
outside the allocation (one or two values).  Only with exactly three values
does the loop evaluate no window and `main` print `0`. -/
theorem C17_short_input :
    subw (vector_size (none : Vec Int)) 3 = 18446744073709551613 ∧
      main grant [] = .ub ∧ main grant [1] = .ub ∧ main grant [1, 2] = .ub ∧
      main grant [1, 2, 3] = .ok 0 := by
  decide

/-- C18 (the code when the allocation fails): `vector__resize_f` and
`vector__grow_f` report `vector__resize_f: allocation failed` and call
`exit (1)`, but `vector__create` and `vector_create` test nothing and write
the header through the `NULL` that `malloc` returned. -/
theorem C18_create_unchecked :
    (∀ n : Nat, vector__create deny n = (Outcome.ub : Outcome (Vec Int))) ∧
      (∀ n : Nat, vector_create deny n = (Outcome.ub : Outcome (Vec Int))) ∧
      (∀ (v : Vec Int) (n : Nat),
        vector__resize_f deny v n = .fatal "vector__resize_f: allocation failed\n" 1) ∧
      (∀ (v : Vec Int) (n : Nat),
        vector__grow_f deny v n = .fatal "vector__resize_f: allocation failed\n" 1) :=
  ⟨fun _ => rfl, fun _ => rfl, fun _ _ => rfl, fun _ _ => rfl⟩

/-- C19 (the code at the failing input): on a buffer with size 3 and
capacity 4 one slot is free, yet `vector__needgrow (v, 1)` holds, because it
tests `size + n >= capacity`, and `vector_push` reallocates to capacity 8. -/
theorem C19_needgrow_with_free_slot :
    vector__needgrow (some ⟨3, 4, [some 1, some 2, some 3, none]⟩ : Vec Int) 1 = true ∧
      vector_push grant (some ⟨3, 4, [some 1, some 2, some 3, none]⟩ : Vec Int) 7 =
        .ok (some ⟨4, 8, [some 1, some 2, some 3, some 7, none, none, none, none]⟩) ∧
      vector__needgrow (some ⟨2, 4, [some 1, some 2, none, none]⟩ : Vec Int) 1 = false := by
  decide

/-- C20, counterexample: on the input of 1431655766 blocks
`0, 0, 0, 1, 1, 1` and a final `0, 0, 0` the three-measurement sum increases
at 4294967298 indices, and `main` prints `2`. -/
theorem C20_counterexample :
    4 ≤ (zigzag_input 1431655766).length ∧
      sum_increases (zigzag_input 1431655766) = 4294967298 ∧
      main grant (zigzag_input 1431655766) ≠ .ok (sum_increases (zigzag_input 1431655766)) := by
  have hs : sum_increases (zigzag_input 1431655766) = 4294967298 := by
    rw [← window_eq_sum, window_increases_zigzag]
  refine ⟨?_, hs, ?_⟩
  · rw [zigzag_input_length]
    decide
  · rw [hs, main_zigzag 1431655766 (by decide)]
    decide

/-- C20, amended: over exact integers the test `d > a` of `main` is
equivalent to the sum test `b + c + d > a + b + c` it leaves commented out,
so for every input of at least four integers the number `main` prints is,
modulo `2 ^ 32` (the counter is an `unsigned`), the number of indices at which
the sum of the three measurements starting at `i + 1` exceeds the sum of the
three starting at `i`; it is exactly that number whenever it is below
`2 ^ 32`. -/
theorem C20_sum_refinement (alloc : Nat → Bool) (xs : List Int) (h4 : 4 ≤ xs.length)
    (h62 : xs.length ≤ 2 ^ 62) (ha : ∀ k, alloc k = true) :
    (∀ a b c d : Int, d > a ↔ b + c + d > a + b + c) ∧
      window_increases xs = sum_increases xs ∧
      main alloc xs = .ok (sum_increases xs % UINT_MOD) ∧
      (sum_increases xs < UINT_MOD → main alloc xs = .ok (sum_increases xs)) := by
  have hm : main alloc xs = .ok (sum_increases xs % UINT_MOD) := by
    rw [main_spec alloc ha xs (by omega) h62, window_eq_sum]
  refine ⟨fun a b c d => by omega, window_eq_sum xs, hm, fun hfit => ?_⟩
  rw [hm, Nat.mod_eq_of_lt hfit]

/-- Witness for C20: the example of the puzzle statement has five increases
of the three-measurement sum. -/
theorem C20_sum_refinement_witness :
    ((∀ a b c d : Int, d > a ↔ b + c + d > a + b + c) ∧
        window_increases [199, 200, 208, 210, 200, 207, 240, 269, 260, 263] =
          sum_increases [199, 200, 208, 210, 200, 207, 240, 269, 260, 263] ∧
        main grant [199, 200, 208, 210, 200, 207, 240, 269, 260, 263] =
          .ok (sum_increases [199, 200, 208, 210, 200, 207, 240, 269, 260, 263] % UINT_MOD) ∧
        (sum_increases [199, 200, 208, 210, 200, 207, 240, 269, 260, 263] < UINT_MOD →
          main grant [199, 200, 208, 210, 200, 207, 240, 269, 260, 263] =
            .ok (sum_increases [199, 200, 208, 210, 200, 207, 240, 269, 260, 263]))) ∧
      sum_increases [199, 200, 208, 210, 200, 207, 240, 269, 260, 263] = 5 :=
  ⟨C20_sum_refinement grant [199, 200, 208, 210, 200, 207, 240, 269, 260, 263]
    (by decide) (by decide) (fun _ => rfl), by decide⟩

end Claims

end Aoc
